import Mathlib

/-!
Verification development for the rlox tree-walking interpreter
(`src/rlox`).  Each Rust module relevant to the checked properties is
shallowly embedded: pure data types become inductives, the scanner,
parser and evaluator become fueled state-passing functions, and the
`Rc<RefCell<Environment>>` graph becomes an explicit arena (list) of
environment records addressed by index.
-/

namespace Rlox

/-! ## src/rlox/src/token.rs — `TokenType`, `Literal`, `Coordinate`, `Token`

Keyword token types are prefixed with `kw` because their Rust names
(`And`, `Class`, `If`, ...) collide with Lean keywords. -/

inductive TokenType where
  | leftParen | rightParen | leftBrace | rightBrace | comma | dot
  | minus | minusEqual | plus | plusEqual | semicolon
  | slash | slashEqual | star | starEqual
  | bang | bangEqual | equal | equalEqual
  | greater | greaterEqual | less | lessEqual
  | identifier | string | number
  | kwAnd | kwClass | kwFalse | kwFun | kwFor | kwIf | kwElse | kwNil
  | kwOr | kwPrint | kwReturn | kwSuper | kwThis | kwTrue | kwVar
  | kwWhile | kwBreak
  | eof
  deriving DecidableEq, Repr

/-- `Literal` from token.rs.  `Number` carries an `f64`; Lean's `Float`
is the same IEEE-754 binary64 type. -/
inductive Literal where
  | number (n : Float)
  | string (s : String)
  | boolean (b : Bool)
  | nil
  deriving Repr

structure Coordinate where
  index : Nat
  line : Nat
  column : Nat
  is_synthetic : Bool
  deriving DecidableEq, Repr

def Coordinate.new (index line column : Nat) : Coordinate :=
  { index := index, line := line, column := column, is_synthetic := false }

def Coordinate.synthetic : Coordinate :=
  { index := 0, line := 0, column := 0, is_synthetic := true }

structure Token where
  token_type : TokenType
  lexeme : Option String
  literal : Literal
  coordinate : Coordinate
  deriving Repr

def Token.new (token_type : TokenType) (lexeme : Option String)
    (literal : Literal) (coordinate : Coordinate) : Token :=
  { token_type := token_type, lexeme := lexeme, literal := literal,
    coordinate := coordinate }

def Token.syntheticTok (t : TokenType) (literal : Literal) : Token :=
  Token.new t none literal Coordinate.synthetic

/-- `Token::with_lexeme` applies `f` to the lexeme, or to `""` when absent. -/
def Token.with_lexeme (tok : Token) (f : String → α) : α :=
  match tok.lexeme with
  | some lex => f lex
  | none => f ""

/-- `Token::lexeme_or_empty` (used by the parser and evaluator; declared in
the `language/token.rs` revision of the token module, which behaves as
`lexeme.clone().unwrap_or_default()`). -/
def Token.lexeme_or_empty (tok : Token) : String :=
  match tok.lexeme with
  | some lex => lex
  | none => ""

/-! ## src/rlox/src/scanner.rs

The `CharWithCoordinate` iterator is embedded as a function producing the
whole `(char, Coordinate)` stream up front; the scanner functions then
recurse over that list.  `scan_token` restarts itself after whitespace and
comments, so it carries fuel; every other loop is structural on the
stream.  Rust's byte-based `CharIndices` offsets are reproduced with
`Char.utf8Size`. -/

inductive LexicalError where
  | invalidCharacter (c : Char) (co : Coordinate)
  | invalidNumber (co : Coordinate)
  | unterminatedString (co : Coordinate)
  | unexpectedEndOfFile
  deriving Repr

/-- Result of a scanner computation: success, lexical error, or fuel ran
out (the Rust loops always terminate, so callers pass ample fuel). -/
inductive ScanRes (α : Type) where
  | ok (a : α)
  | err (e : LexicalError)
  | nofuel
  deriving Repr

/-- The `CharWithCoordinate` iterator: 1-based line/column, newline resets
the column, and the byte index advances by the char's UTF-8 size. -/
def char_with_coordinate : List Char → Nat → Nat → Nat → List (Char × Coordinate)
  | [], _, _, _ => []
  | c :: cs, index, line, column =>
    (c, Coordinate.new index line column) ::
      (if c = '\n' then
        char_with_coordinate cs (index + c.utf8Size) (line + 1) 1
      else
        char_with_coordinate cs (index + c.utf8Size) line (column + 1))

/-- `Scanner::take`: next char or `UnexpectedEndOfFile`. -/
def take : List (Char × Coordinate) →
    Except LexicalError ((Char × Coordinate) × List (Char × Coordinate))
  | [] => .error .unexpectedEndOfFile
  | cc :: rest => .ok (cc, rest)

/-- `Scanner::match_char`: consume the next char iff it equals `expected`. -/
def match_char (expected : Char) : List (Char × Coordinate) →
    Bool × List (Char × Coordinate)
  | [] => (false, [])
  | (c, co) :: rest =>
    if c = expected then (true, rest) else (false, (c, co) :: rest)

def is_at_end (cs : List (Char × Coordinate)) : Bool := cs.isEmpty

def next_is_digit : List (Char × Coordinate) → Bool
  | [] => false
  | (c, _) :: _ => c.isDigit

/-- `next_is_alphanumeric`; Lean's `Char.isAlphanum` models Rust's
`char::is_alphanumeric` (they agree on ASCII). -/
def next_is_alphanumeric : List (Char × Coordinate) → Bool
  | [] => false
  | (c, _) :: _ => c.isAlphanum || c = '_'

def simple_token (token_type : TokenType) (ch : Char × Coordinate) : Option Token :=
  some (Token.new token_type (some (String.singleton ch.1)) .nil ch.2)

def multi_char_token (token_type : TokenType) (s : String)
    (coordinate : Coordinate) : Option Token :=
  some (Token.new token_type (some s) .nil coordinate)

/-- `Scanner::skip_comment`: consume chars until just after a newline (or
until the stream is exhausted). -/
def skip_comment : List (Char × Coordinate) → List (Char × Coordinate)
  | [] => []
  | (c, _) :: rest =>
    if c = '\n' || is_at_end rest then rest else skip_comment rest

/-- `Scanner::string`: consume up to and including the closing quote; the
literal payload strips the surrounding quotes. -/
def string_loop (lexeme : String) (start_corrdinate : Coordinate) :
    List (Char × Coordinate) →
    Except LexicalError (Option Token × List (Char × Coordinate))
  | [] => .error (.unterminatedString start_corrdinate)
  | (ch, _) :: rest =>
    let lexeme := lexeme.push ch
    if ch = '"' then
      let literal := Literal.string ((lexeme.drop 1).dropRight 1)
      .ok (some (Token.new .string (some lexeme) literal start_corrdinate), rest)
    else
      string_loop lexeme start_corrdinate rest

/-- Digit-consuming loop shared by the integer and fractional parts of
`Scanner::number`. -/
def digits_loop (lexeme : String) : List (Char × Coordinate) →
    String × List (Char × Coordinate)
  | [] => (lexeme, [])
  | (c, co) :: rest =>
    if c.isDigit then digits_loop (lexeme.push c) rest
    else (lexeme, (c, co) :: rest)

/-- `Scanner::parse_number` defers to `str::parse::<f64>`, i.e. correctly
rounded decimal-to-binary conversion of `[0-9]*(.[0-9]+)?` lexemes; that
conversion is `Float.ofScientific` on the digit string. -/
def parse_number (num : String) (_coordinate : Coordinate) :
    Except LexicalError Float :=
  let digits := num.toList.filter (fun c => c ≠ '.')
  let mantissa := digits.foldl (fun n c => n * 10 + (c.toNat - 48)) 0
  let fracLen :=
    match num.toList.dropWhile (fun c => c ≠ '.') with
    | [] => 0
    | _ :: frac => frac.length
  .ok (Float.ofScientific mantissa true fracLen)

/-- `Scanner::number`. -/
def number (lexeme : String) (start_coordinate : Coordinate)
    (cs : List (Char × Coordinate)) :
    Except LexicalError (Option Token × List (Char × Coordinate)) :=
  let (lexeme, cs) := digits_loop lexeme cs
  match match_char '.' cs with
  | (true, cs) =>
    if !next_is_digit cs then
      .error (.invalidNumber start_coordinate)
    else
      let (lexeme, cs) := digits_loop (lexeme.push '.') cs
      match parse_number lexeme start_coordinate with
      | .error e => .error e
      | .ok x =>
        .ok (some (Token.new .number (some lexeme) (.number x) start_coordinate), cs)
  | (false, cs) =>
    match parse_number lexeme start_coordinate with
    | .error e => .error e
    | .ok x =>
      .ok (some (Token.new .number (some lexeme) (.number x) start_coordinate), cs)

/-- Alphanumeric tail loop of `Scanner::identifier`. -/
def ident_loop (lexeme : String) : List (Char × Coordinate) →
    String × List (Char × Coordinate)
  | [] => (lexeme, [])
  | (c, co) :: rest =>
    if c.isAlphanum || c = '_' then ident_loop (lexeme.push c) rest
    else (lexeme, (c, co) :: rest)

/-- Keyword table of `Scanner::identifier`. -/
def keyword_type (lexeme : String) : TokenType :=
  if lexeme = "and" then .kwAnd
  else if lexeme = "class" then .kwClass
  else if lexeme = "else" then .kwElse
  else if lexeme = "false" then .kwFalse
  else if lexeme = "for" then .kwFor
  else if lexeme = "fun" then .kwFun
  else if lexeme = "if" then .kwIf
  else if lexeme = "nil" then .kwNil
  else if lexeme = "or" then .kwOr
  else if lexeme = "print" then .kwPrint
  else if lexeme = "return" then .kwReturn
  else if lexeme = "super" then .kwSuper
  else if lexeme = "this" then .kwThis
  else if lexeme = "true" then .kwTrue
  else if lexeme = "var" then .kwVar
  else if lexeme = "while" then .kwWhile
  else if lexeme = "break" then .kwBreak
  else .identifier

/-- `Scanner::identifier`. -/
def identifier (ident : String) (start_coordinate : Coordinate)
    (cs : List (Char × Coordinate)) :
    Except LexicalError (Option Token × List (Char × Coordinate)) :=
  let (lexeme, cs) := ident_loop ident cs
  let token_type := keyword_type lexeme
  let literal : Literal :=
    match token_type with
    | .kwTrue => .boolean true
    | .kwFalse => .boolean false
    | _ => .nil
  .ok (some (Token.new token_type (some lexeme) literal start_coordinate), cs)

/-- Lift an `Except` sub-scanner result into `ScanRes`. -/
def liftScan (r : Except LexicalError (Option Token × List (Char × Coordinate))) :
    ScanRes (Option Token × List (Char × Coordinate)) :=
  match r with
  | .error e => .err e
  | .ok v => .ok v

/-- `Scanner::scan_token`.  The `*` arm reproduces the source verbatim:
when `*` is not followed by `=` it emits `TokenType::Plus` (not `Star`). -/
def scan_token : Nat → List (Char × Coordinate) →
    ScanRes (Option Token × List (Char × Coordinate))
  | 0, _ => .nofuel
  | fuel + 1, cs =>
    match take cs with
    | .error e => .err e
    | .ok ((ch, coordinate), rest) =>
      if ch = '(' then .ok (simple_token .leftParen (ch, coordinate), rest)
      else if ch = ')' then .ok (simple_token .rightParen (ch, coordinate), rest)
      else if ch = '\x7b' then .ok (simple_token .leftBrace (ch, coordinate), rest)
      else if ch = '\x7d' then .ok (simple_token .rightBrace (ch, coordinate), rest)
      else if ch = ',' then .ok (simple_token .comma (ch, coordinate), rest)
      else if ch = '.' then
        (if next_is_digit rest then
          liftScan (number (String.singleton '.') coordinate rest)
        else
          .ok (simple_token .dot (ch, coordinate), rest))
      else if ch = '-' then
        (match match_char '=' rest with
        | (true, rest) => .ok (multi_char_token .minusEqual "-=" coordinate, rest)
        | (false, rest) => .ok (simple_token .minus (ch, coordinate), rest))
      else if ch = '+' then
        (match match_char '=' rest with
        | (true, rest) => .ok (multi_char_token .plusEqual "+=" coordinate, rest)
        | (false, rest) => .ok (simple_token .plus (ch, coordinate), rest))
      else if ch = ';' then .ok (simple_token .semicolon (ch, coordinate), rest)
      else if ch = '*' then
        (match match_char '=' rest with
        | (true, rest) => .ok (multi_char_token .starEqual "*=" coordinate, rest)
        | (false, rest) => .ok (simple_token .plus (ch, coordinate), rest))
      else if ch = '!' then
        (match match_char '=' rest with
        | (true, rest) => .ok (multi_char_token .bangEqual "!=" coordinate, rest)
        | (false, rest) => .ok (simple_token .bang (ch, coordinate), rest))
      else if ch = '=' then
        (match match_char '=' rest with
        | (true, rest) => .ok (multi_char_token .equalEqual "==" coordinate, rest)
        | (false, rest) => .ok (simple_token .equal (ch, coordinate), rest))
      else if ch = '<' then
        (match match_char '=' rest with
        | (true, rest) => .ok (multi_char_token .lessEqual "<=" coordinate, rest)
        | (false, rest) => .ok (simple_token .less (ch, coordinate), rest))
      else if ch = '>' then
        (match match_char '=' rest with
        | (true, rest) => .ok (multi_char_token .greaterEqual ">=" coordinate, rest)
        | (false, rest) => .ok (simple_token .greater (ch, coordinate), rest))
      else if ch = '/' then
        (match match_char '/' rest with
        | (true, rest) =>
          let rest := skip_comment rest
          if is_at_end rest then .ok (none, rest)
          else scan_token fuel rest
        | (false, rest) =>
          match match_char '=' rest with
          | (true, rest) => .ok (multi_char_token .slashEqual "/=" coordinate, rest)
          | (false, rest) => .ok (simple_token .slash (ch, coordinate), rest))
      else if ch = ' ' || ch = '\r' || ch = '\t' || ch = '\n' then
        (if is_at_end rest then .ok (none, rest)
        else scan_token fuel rest)
      else if ch = '"' then
        liftScan (string_loop (String.singleton '"') coordinate rest)
      else if ch.isDigit then
        liftScan (number (String.singleton ch) coordinate rest)
      else if ch.isAlpha || ch = '_' then
        liftScan (identifier (String.singleton ch) coordinate rest)
      else
        .err (.invalidCharacter ch coordinate)

/-- The `while !self.is_at_end()` collection loop of `scan_tokens`. -/
def scan_loop : Nat → List (Char × Coordinate) → List Token → ScanRes (List Token)
  | 0, _, _ => .nofuel
  | fuel + 1, cs, tokens =>
    if is_at_end cs then .ok tokens
    else
      match scan_token (cs.length + 1) cs with
      | .err e => .err e
      | .nofuel => .nofuel
      | .ok (some t, rest) => scan_loop fuel rest (tokens ++ [t])
      | .ok (none, rest) => scan_loop fuel rest tokens

/-- Lines 71–80 of scanner.rs: append an `Eof` token carrying the last
token's coordinate — but only when the collected list is non-empty. -/
def append_eof (tokens : List Token) : List Token :=
  match tokens.getLast? with
  | some t =>
    if t.token_type ≠ .eof then
      tokens ++ [Token.new .eof none .nil t.coordinate]
    else tokens
  | none => tokens

/-- `Scanner::scan_tokens` on a source string. -/
def scan_tokens (src : String) : ScanRes (List Token) :=
  let cs := char_with_coordinate src.toList 0 1 1
  match scan_loop (cs.length + 1) cs [] with
  | .ok tokens => .ok (append_eof tokens)
  | .err e => .err e
  | .nofuel => .nofuel

/-! ## src/rlox/src/language/ast.rs — `Expr` and `Stmt`

Constructor names that collide with Lean keywords get a short suffix
(`variableE`, `functionE`, `varS`, `ifS`, `whileS`, `breakS`,
`functionS`); `Return` becomes `ret`. -/

mutual

inductive Expr where
  | binary (left : Expr) (operator : Token) (right : Expr)
  | literal (value : Token)
  | grouping (expression : Expr)
  | call (callee : Expr) (paren : Token) (args : List Expr)
  | unary (operator : Token) (right : Expr)
  | variableE (name : Token)
  | assign (name : Token) (value : Expr)
  | logical (left : Expr) (operator : Token) (right : Expr)
  | functionE (params : List Token) (body : List Stmt)

inductive Stmt where
  | expression (expression : Expr)
  | print (expression : Expr)
  | varS (name : Token) (initializer : Option Expr)
  | block (statements : List Stmt)
  | ifS (condition : Expr) (then_branch : Stmt) (else_branch : Option Stmt)
  | whileS (condition : Expr) (body : Stmt)
  | breakS (keyword : Token)
  | functionS (name : Token) (params : List Token) (body : List Stmt)
  | ret (keyword : Token) (value : Option Expr)

end

/-! ## src/rlox/src/language/errors.rs — `ParseError` -/

inductive ParseError where
  | tokenAssertionFailure (msg : String) (expected : TokenType)
      (found : TokenType) (coordinate : Coordinate)
  | unexpectedToken (msg : String) (token_lexeme : String)
      (coordinate : Coordinate)
  | unexpectedEndOfFile (after_token : String)
  | invalidAssignmentTarget (token_lexeme : String) (coordinate : Coordinate)
  | likelyLogicalError
  deriving Repr

/-! ## src/rlox/src/language/parser.rs

The `Parser` struct (`TokenStream` + `is_in_loop`) becomes `PState`.
Every parser method is a state-passing function `PState → PRes α × PState`
(the `PM` monad); `PRes.perr` models a returned `ParseError` (Rust `?`),
`PRes.panicked` models a Rust panic (`take_token`'s `.unwrap()`, the
`unreachable!` in `loop_statment`), and `PRes.nofuel` is the artificial
out-of-fuel outcome of the shallow embedding.  The mutually recursive
grammar functions burn one unit of fuel per call. -/

structure PState where
  tokens : List Token
  current : Nat
  is_in_loop : Bool

inductive PRes (α : Type) where
  | ok (a : α)
  | perr (e : ParseError)
  | panicked
  | nofuel

def PM (α : Type) : Type := PState → PRes α × PState

def PM.pure (a : α) : PM α := fun s => (.ok a, s)

def PM.bind (m : PM α) (f : α → PM β) : PM β := fun s =>
  match m s with
  | (.ok a, s) => f a s
  | (.perr e, s) => (.perr e, s)
  | (.panicked, s) => (.panicked, s)
  | (.nofuel, s) => (.nofuel, s)

instance : Monad PM where
  pure := PM.pure
  bind := PM.bind

def PM.throw (e : ParseError) : PM α := fun s => (.perr e, s)

def PM.noFuel : PM α := fun s => (.nofuel, s)

def PM.panic : PM α := fun s => (.panicked, s)

/-- `TokenStream::peek`. -/
def peek_tok : PM (Option Token) := fun s => (.ok (s.tokens.get? s.current), s)

/-- `TokenStream::next`: advance and return the token just passed. -/
def next_tok : PM (Option Token) := fun s =>
  if s.current ≥ s.tokens.length then (.ok none, s)
  else (.ok (s.tokens.get? s.current), { s with current := s.current + 1 })

/-- `TokenStream::take_if`. -/
def take_if (f : Token → Bool) : PM (Option Token) := fun s =>
  match s.tokens.get? s.current with
  | some t =>
    if f t then (.ok (some t), { s with current := s.current + 1 })
    else (.ok none, s)
  | none => (.ok none, s)

/-- `Parser::take_token` — `self.stream.next().unwrap()`: panics at the
end of the stream. -/
def take_token : PM Token := fun s =>
  match next_tok s with
  | (.ok (some t), s) => (.ok t, s)
  | (_, s) => (.panicked, s)

/-- `Parser::expect`. -/
def expect (msg : String) (t : TokenType) : PM Token :=
  PM.bind take_token fun tok =>
    if tok.token_type = t then PM.pure tok
    else PM.throw (.tokenAssertionFailure msg t tok.token_type tok.coordinate)

/-- `Parser::next_is`. -/
def next_is (t : TokenType) : PM Bool := fun s =>
  (.ok (match s.tokens.get? s.current with
        | some tok => tok.token_type = t
        | none => false), s)

/-- `Parser::match_exact`. -/
def match_exact (t : TokenType) : PM (Option Token) :=
  take_if (fun tok => tok.token_type = t)

/-- `Parser::match_one_of`. -/
def match_one_of (types : List TokenType) : PM (Option Token) :=
  take_if (fun tok => types.contains tok.token_type)

/-- `Parser::toggle_loop` — note: it *toggles* the flag rather than
saving/restoring it. -/
def toggle_loop (s : PState) : PState :=
  { s with is_in_loop := !s.is_in_loop }

def get_is_in_loop : PM Bool := fun s => (.ok s.is_in_loop, s)

/-- `Parser::is_done`. -/
def is_done : PM Bool := fun s =>
  (.ok (match s.tokens.get? s.current with
        | some tok => tok.token_type = .eof
        | none => true), s)

def EQUALITIES : List TokenType := [.bangEqual, .equalEqual]

def COMPARISONS : List TokenType := [.greater, .greaterEqual, .less, .lessEqual]

def ADDITIONS : List TokenType := [.minus, .plus]

def MULTIPLICATIONS : List TokenType := [.slash, .star]

def URNARIES : List TokenType := [.bang, .minus]

def LITERALS : List TokenType := [.number, .string, .kwTrue, .kwFalse, .kwNil]

def ASSIGNMENTS : List TokenType :=
  [.equal, .plusEqual, .minusEqual, .starEqual, .slashEqual]

def literal_true : Expr := Expr.literal (Token.syntheticTok .kwTrue (.boolean true))

/-- `desugar_assignment`: `x op= e` becomes
`Assign{x, Binary{Variable{x}, op, e}}` with a synthetic operator token. -/
def desugar_assignment (name : Token) (t : TokenType) (value : Expr) :
    Except ParseError Expr :=
  match (match t with
         | .plusEqual => Except.ok TokenType.plus
         | .minusEqual => Except.ok TokenType.minus
         | .starEqual => Except.ok TokenType.star
         | .slashEqual => Except.ok TokenType.slash
         | _ => Except.error (ParseError.invalidAssignmentTarget
                  name.lexeme_or_empty name.coordinate)) with
  | .error e => .error e
  | .ok t =>
    .ok (Expr.assign name
          (Expr.binary (Expr.variableE name) (Token.syntheticTok t .nil) value))

/-- `while_loop_with_increment`: append the increment inside the body
block (wrapping a non-block body in a fresh block). -/
def while_loop_with_increment (condition : Expr) (body : Stmt)
    (increment : Option Stmt) : Stmt :=
  match body with
  | .block statements =>
    Stmt.whileS condition (Stmt.block (statements ++ increment.toList))
  | other =>
    Stmt.whileS condition (Stmt.block ([other] ++ increment.toList))

/-- `desugar_for_loop`. -/
def desugar_for_loop (init : Option Stmt) (condition : Option Expr)
    (increment : Option Stmt) (body : Stmt) : Stmt :=
  Stmt.block (init.toList ++
    [while_loop_with_increment (condition.getD literal_true) body increment])

mutual

/-- `Parser::declaration`. -/
def declaration : Nat → PM Stmt
  | 0 => PM.noFuel
  | fuel + 1 => do
    match ← match_exact .kwVar with
    | some _ => var_declaration fuel
    | none =>
      match ← match_exact .kwFun with
      | some _ => function_declaration fuel
      | none => statement fuel

/-- `Parser::function_declaration`. -/
def function_declaration : Nat → PM Stmt
  | 0 => PM.noFuel
  | fuel + 1 => do
    let name ← expect "functions should have a name" .identifier
    let _ ← expect "function dec should be followed by \"(\"" .leftParen
    let params ← (do
      if !(← next_is .rightParen) then params_loop fuel []
      else PM.pure [])
    let _ ← expect "function declaration to close parens properly" .rightParen
    let _ ← expect "function to be followed by a block scope" .leftBrace
    let body ← block fuel
    match body with
    | .block statements => PM.pure (Stmt.functionS name params statements)
    | _ => PM.throw .likelyLogicalError

/-- The parameter-list loop shared syntactically by `function_declaration`
and `function_expression`. -/
def params_loop : Nat → List Token → PM (List Token)
  | 0, _ => PM.noFuel
  | fuel + 1, acc => do
    let param ← expect "expected a list of parameters" .identifier
    match ← match_exact .comma with
    | some _ => params_loop fuel (acc ++ [param])
    | none => PM.pure (acc ++ [param])

/-- `Parser::var_declaration`. -/
def var_declaration : Nat → PM Stmt
  | 0 => PM.noFuel
  | fuel + 1 => do
    let name ← expect "var statment missing identifier" .identifier
    let initializer ← (do
      match ← match_exact .equal with
      | some _ => do
        let e ← expression fuel
        PM.pure (some e)
      | none => PM.pure none)
    let _ ← expect "unterminated var statement" .semicolon
    PM.pure (Stmt.varS name initializer)

/-- `Parser::statement`. -/
def statement : Nat → PM Stmt
  | 0 => PM.noFuel
  | fuel + 1 => do
    match ← match_exact .kwPrint with
    | some _ => print_statement fuel
    | none =>
      match ← match_exact .leftBrace with
      | some _ => block fuel
      | none =>
        match ← match_exact .kwIf with
        | some _ => if_statement fuel
        | none => do
          if (← next_is .kwWhile) || (← next_is .kwFor) then loop_statment fuel
          else if ← next_is .kwBreak then break_statement fuel
          else if ← next_is .kwReturn then return_statement fuel
          else expression_statement fuel

/-- `Parser::return_statement`. -/
def return_statement : Nat → PM Stmt
  | 0 => PM.noFuel
  | fuel + 1 => do
    let keyword ← take_token
    let value ← (do
      if ← next_is .semicolon then PM.pure none
      else do
        let e ← expression fuel
        PM.pure (some e))
    let _ ← expect "unterminated return statement" .semicolon
    PM.pure (Stmt.ret keyword value)

/-- `Parser::break_statement` — errors unless `is_in_loop` is currently
set. -/
def break_statement : Nat → PM Stmt
  | 0 => PM.noFuel
  | _fuel + 1 => do
    let keyword ← take_token
    if !(← get_is_in_loop) then
      PM.throw (.unexpectedToken "\"break\" can only occur inside a loop"
        keyword.lexeme_or_empty keyword.coordinate)
    else do
      let _ ← expect "unterminated \"break\"" .semicolon
      PM.pure (Stmt.breakS keyword)

/-- `Parser::loop_statment` (source spelling).  Toggles `is_in_loop` on
entry, dispatches on the consumed `for`/`while` token, and toggles again
after the sub-parser returns (also on its parse errors, matching the Rust
control flow where the second `toggle_loop` runs before `res` is
returned; a panic unwinds without the second toggle). -/
def loop_statment : Nat → PM Stmt
  | 0 => PM.noFuel
  | fuel + 1 => fun s =>
    let s := toggle_loop s
    match take_token s with
    | (.ok t, s) =>
      let (res, s) :=
        (if t.token_type = .kwFor then for_statement fuel
         else if t.token_type = .kwWhile then while_statement fuel
         else PM.panic) s
      (match res with
       | .ok st => (.ok st, toggle_loop s)
       | .perr e => (.perr e, toggle_loop s)
       | .panicked => (.panicked, s)
       | .nofuel => (.nofuel, s))
    | (.perr e, s) => (.perr e, s)
    | (.panicked, s) => (.panicked, s)
    | (.nofuel, s) => (.nofuel, s)

/-- `Parser::for_statement` (including the de-sugaring). -/
def for_statement : Nat → PM Stmt
  | 0 => PM.noFuel
  | fuel + 1 => do
    let _ ← expect "for loop requires \"(...\x27" .leftParen
    let intializer ← (do
      match ← match_exact .semicolon with
      | some _ => PM.pure none
      | none =>
        match ← match_exact .kwVar with
        | some _ => do
          let d ← var_declaration fuel
          PM.pure (some d)
        | none => do
          let d ← expression_statement fuel
          PM.pure (some d))
    let condition ← (do
      match ← match_exact .semicolon with
      | some _ => PM.pure none
      | none => do
        let cond ← expression fuel
        let _ ← expect "for loop condition missing termating \";\"" .semicolon
        PM.pure (some cond))
    let increment ← (do
      match ← match_exact .rightParen with
      | some _ => PM.pure none
      | none => do
        let e ← expression fuel
        let _ ← expect "for loop unclosed parens" .rightParen
        PM.pure (some (Stmt.expression e)))
    let body ← statement fuel
    PM.pure (desugar_for_loop intializer condition increment body)

/-- `Parser::while_statement`. -/
def while_statement : Nat → PM Stmt
  | 0 => PM.noFuel
  | fuel + 1 => do
    let _ ← expect "while statement requires \"(...\"" .leftParen
    let condition ← expression fuel
    let _ ← expect "while statement unclosed parens" .rightParen
    let body ← statement fuel
    PM.pure (Stmt.whileS condition body)

/-- `Parser::if_statement`. -/
def if_statement : Nat → PM Stmt
  | 0 => PM.noFuel
  | fuel + 1 => do
    let _ ← expect "if statement requires \"(...\"" .leftParen
    let condition ← expression fuel
    let _ ← expect "if statement unclosed parens" .rightParen
    let then_branch ← statement fuel
    let else_branch ← (do
      match ← match_exact .kwElse with
      | some _ => do
        let e ← statement fuel
        PM.pure (some e)
      | none => PM.pure none)
    PM.pure (Stmt.ifS condition then_branch else_branch)

/-- `Parser::block`. -/
def block : Nat → PM Stmt
  | 0 => PM.noFuel
  | fuel + 1 => do
    let statements ← block_loop fuel []
    let _ ← expect "unterminated block scope" .rightBrace
    PM.pure (Stmt.block statements)

/-- The declaration-collecting loop of `Parser::block`. -/
def block_loop : Nat → List Stmt → PM (List Stmt)
  | 0, _ => PM.noFuel
  | fuel + 1, acc => do
    if !((← next_is .rightBrace) || (← is_done)) then do
      let d ← declaration fuel
      block_loop fuel (acc ++ [d])
    else PM.pure acc

/-- `Parser::print_statement`. -/
def print_statement : Nat → PM Stmt
  | 0 => PM.noFuel
  | fuel + 1 => do
    let e ← expression fuel
    let _ ← expect "unterminated \"print\" statement" .semicolon
    PM.pure (Stmt.print e)

/-- `Parser::expression_statement`. -/
def expression_statement : Nat → PM Stmt
  | 0 => PM.noFuel
  | fuel + 1 => do
    let e ← expression fuel
    let _ ← expect "unterminated statement" .semicolon
    PM.pure (Stmt.expression e)

/-- `Parser::expression`. -/
def expression : Nat → PM Expr
  | 0 => PM.noFuel
  | fuel + 1 => assignment fuel

/-- `Parser::assignment`. -/
def assignment : Nat → PM Expr
  | 0 => PM.noFuel
  | fuel + 1 => do
    let expr ← logical_or fuel
    match ← match_one_of ASSIGNMENTS with
    | some tok =>
      (match expr with
       | .variableE name => do
         let value ← assignment fuel
         if tok.token_type ≠ .equal then
           (match desugar_assignment name tok.token_type value with
            | .ok e => PM.pure e
            | .error pe => PM.throw pe)
         else PM.pure (Expr.assign name value)
       | _ => PM.throw (.invalidAssignmentTarget tok.lexeme_or_empty
                tok.coordinate))
    | none => PM.pure expr

/-- `Parser::logical_or`. -/
def logical_or : Nat → PM Expr
  | 0 => PM.noFuel
  | fuel + 1 => do
    let expr ← logical_and fuel
    logical_or_loop fuel expr

def logical_or_loop : Nat → Expr → PM Expr
  | 0, _ => PM.noFuel
  | fuel + 1, expr => do
    match ← match_exact .kwOr with
    | some operator => do
      let right ← logical_and fuel
      logical_or_loop fuel (Expr.logical expr operator right)
    | none => PM.pure expr

/-- `Parser::logical_and`. -/
def logical_and : Nat → PM Expr
  | 0 => PM.noFuel
  | fuel + 1 => do
    let expr ← equality fuel
    logical_and_loop fuel expr

def logical_and_loop : Nat → Expr → PM Expr
  | 0, _ => PM.noFuel
  | fuel + 1, expr => do
    match ← match_exact .kwAnd with
    | some operator => do
      let right ← equality fuel
      logical_and_loop fuel (Expr.logical expr operator right)
    | none => PM.pure expr

/-- `Parser::equality`. -/
def equality : Nat → PM Expr
  | 0 => PM.noFuel
  | fuel + 1 => do
    let expr ← comparison fuel
    equality_loop fuel expr

def equality_loop : Nat → Expr → PM Expr
  | 0, _ => PM.noFuel
  | fuel + 1, expr => do
    match ← match_one_of EQUALITIES with
    | some operator => do
      let right ← comparison fuel
      equality_loop fuel (Expr.binary expr operator right)
    | none => PM.pure expr

/-- `Parser::comparison`. -/
def comparison : Nat → PM Expr
  | 0 => PM.noFuel
  | fuel + 1 => do
    let t ← term fuel
    comparison_loop fuel t

def comparison_loop : Nat → Expr → PM Expr
  | 0, _ => PM.noFuel
  | fuel + 1, t => do
    match ← match_one_of COMPARISONS with
    | some operator => do
      let right ← term fuel
      comparison_loop fuel (Expr.binary t operator right)
    | none => PM.pure t

/-- `Parser::term`. -/
def term : Nat → PM Expr
  | 0 => PM.noFuel
  | fuel + 1 => do
    let f ← factor fuel
    term_loop fuel f

def term_loop : Nat → Expr → PM Expr
  | 0, _ => PM.noFuel
  | fuel + 1, f => do
    match ← match_one_of ADDITIONS with
    | some operator => do
      let right ← factor fuel
      term_loop fuel (Expr.binary f operator right)
    | none => PM.pure f

/-- `Parser::factor`. -/
def factor : Nat → PM Expr
  | 0 => PM.noFuel
  | fuel + 1 => do
    let u ← unary fuel
    factor_loop fuel u

def factor_loop : Nat → Expr → PM Expr
  | 0, _ => PM.noFuel
  | fuel + 1, u => do
    match ← match_one_of MULTIPLICATIONS with
    | some operator => do
      let right ← unary fuel
      factor_loop fuel (Expr.binary u operator right)
    | none => PM.pure u

/-- `Parser::unary`. -/
def unary : Nat → PM Expr
  | 0 => PM.noFuel
  | fuel + 1 => do
    match ← match_one_of URNARIES with
    | some operator => do
      let right ← unary fuel
      PM.pure (Expr.unary operator right)
    | none => call fuel

/-- `Parser::call`. -/
def call : Nat → PM Expr
  | 0 => PM.noFuel
  | fuel + 1 => do
    let expr ← primary fuel
    call_loop fuel expr

def call_loop : Nat → Expr → PM Expr
  | 0, _ => PM.noFuel
  | fuel + 1, expr => do
    match ← match_exact .leftParen with
    | some _ => do
      let expr ← finish_call fuel expr
      call_loop fuel expr
    | none => PM.pure expr

/-- `Parser::finish_call`.  (The ≥255-argument warning is a println with
no effect on the returned value and is not modelled.) -/
def finish_call : Nat → Expr → PM Expr
  | 0, _ => PM.noFuel
  | fuel + 1, expr => do
    let args ← (do
      if !(← next_is .rightParen) then args_loop fuel []
      else PM.pure [])
    let paren ← expect "function calls should end in \")\"" .rightParen
    PM.pure (Expr.call expr paren args)

def args_loop : Nat → List Expr → PM (List Expr)
  | 0, _ => PM.noFuel
  | fuel + 1, acc => do
    let e ← expression fuel
    match ← match_exact .comma with
    | some _ => args_loop fuel (acc ++ [e])
    | none => PM.pure (acc ++ [e])

/-- `Parser::primary`. -/
def primary : Nat → PM Expr
  | 0 => PM.noFuel
  | fuel + 1 => do
    let tok ← take_token
    if LITERALS.contains tok.token_type then PM.pure (Expr.literal tok)
    else if tok.token_type = .identifier then PM.pure (Expr.variableE tok)
    else if tok.token_type = .leftParen then do
      let expr ← expression fuel
      let _ ← expect "unterminated left parens" .rightParen
      PM.pure (Expr.grouping expr)
    else if tok.token_type = .kwFun then function_expression fuel
    else PM.throw (.unexpectedToken "parsing \"primary\""
      tok.lexeme_or_empty tok.coordinate)

/-- `Parser::function_expression` (anonymous `fun` in expression
position). -/
def function_expression : Nat → PM Expr
  | 0 => PM.noFuel
  | fuel + 1 => do
    let _ ← expect "function expression should be followed by \"(\"" .leftParen
    let params ← (do
      if !(← next_is .rightParen) then params_loop fuel []
      else PM.pure [])
    let _ ← expect "function declaration to close parens properly" .rightParen
    let _ ← expect "function to be followed by a block scope" .leftBrace
    let body ← block fuel
    match body with
    | .block statements => PM.pure (Expr.functionE params statements)
    | _ => PM.throw .likelyLogicalError

end

/-- `Parser::syncronize` (source spelling). -/
def syncronize : Nat → PM Unit
  | 0 => PM.noFuel
  | fuel + 1 => do
    match ← next_tok with
    | none => PM.pure ()
    | some tok =>
      if tok.token_type = .semicolon then PM.pure ()
      else
        match tok.token_type with
        | .kwClass | .kwFun | .kwVar | .kwFor | .kwIf | .kwWhile
        | .kwPrint | .kwReturn => PM.pure ()
        | _ => syncronize fuel

/-- The statement/error accumulation loop of `Parser::parse`. -/
def parse_loop : Nat → List Stmt → List ParseError →
    PM (List Stmt × List ParseError)
  | 0, _, _ => PM.noFuel
  | fuel + 1, stmts, errors => fun s =>
    match is_done s with
    | (.ok true, s) => (.ok (stmts, errors), s)
    | (_, s) =>
      match declaration fuel s with
      | (.ok st, s) => parse_loop fuel (stmts ++ [st]) errors s
      | (.perr e, s) =>
        (match syncronize fuel s with
         | (.ok _, s) => parse_loop fuel stmts (errors ++ [e]) s
         | (.perr pe, s) => (.perr pe, s)
         | (.panicked, s) => (.panicked, s)
         | (.nofuel, s) => (.nofuel, s))
      | (.panicked, s) => (.panicked, s)
      | (.nofuel, s) => (.nofuel, s)

/-- `Parser::parse` on a token list: all statements, or all accumulated
errors.  The fuel is a generous bound; on any input the Rust parser
terminates, and on the concrete inputs below the fuel is ample. -/
def parse (tokens : List Token) : PRes (Except (List ParseError) (List Stmt)) :=
  let s : PState := { tokens := tokens, current := 0, is_in_loop := false }
  match parse_loop (tokens.length * 64 + 64) [] [] s with
  | (.ok (stmts, errors), _) =>
    .ok (if errors.isEmpty then .ok stmts else .error errors)
  | (.perr _, _) => .panicked
  | (.panicked, _) => .panicked
  | (.nofuel, _) => .nofuel

/-! Concrete token sequences used as witness inputs for the parser
claims. -/

def co0 : Coordinate := Coordinate.new 0 1 1

def tk (t : TokenType) (lex : String) : Token := Token.new t (some lex) .nil co0

def tkTrue : Token := Token.new .kwTrue (some "true") (.boolean true) co0

def tkEof : Token := Token.new .eof none .nil co0

/-- Tokens of `while (true) break;`. -/
def toksSingle : List Token :=
  [tk .kwWhile "while", tk .leftParen "(", tkTrue, tk .rightParen ")",
   tk .kwBreak "break", tk .semicolon ";", tkEof]

/-- Tokens of `while (true) while (true) break;`. -/
def toksNested : List Token :=
  [tk .kwWhile "while", tk .leftParen "(", tkTrue, tk .rightParen ")",
   tk .kwWhile "while", tk .leftParen "(", tkTrue, tk .rightParen ")",
   tk .kwBreak "break", tk .semicolon ";", tkEof]

/-- Tokens of `while (true) while (true) while (true) break;`. -/
def toksTriple : List Token :=
  [tk .kwWhile "while", tk .leftParen "(", tkTrue, tk .rightParen ")",
   tk .kwWhile "while", tk .leftParen "(", tkTrue, tk .rightParen ")",
   tk .kwWhile "while", tk .leftParen "(", tkTrue, tk .rightParen ")",
   tk .kwBreak "break", tk .semicolon ";", tkEof]

end Rlox

namespace Rlox

/-! ## Scanner theorems (C7, C8) -/

theorem append_eof_last (tokens : List Token) (h : tokens ≠ []) :
    (append_eof tokens).getLast?.map Token.token_type = some .eof := by
  unfold append_eof
  match hl : tokens.getLast? with
  | none => exact absurd (List.getLast?_eq_none_iff.mp hl) h
  | some t =>
    by_cases he : t.token_type = TokenType.eof
    · simp [he, hl]
    · simp [he, List.getLast?_concat, Token.new]

end Rlox

namespace Rlox

/-- C7 (amended): whenever `scan_tokens` succeeds and produces at least one
token, the last token of the sequence has type `Eof`.  (The original claim
additionally demanded a non-empty result for the empty / whitespace-only /
comment-only inputs; `spec_C7_counterexample` refutes that part.) -/
theorem spec_C7 (src : String) (ts : List Token)
    (hok : scan_tokens src = .ok ts) (hne : ts ≠ []) :
    ts.getLast?.map Token.token_type = some .eof := by
  unfold scan_tokens at hok
  dsimp only at hok
  split at hok
  case _ tokens heq =>
    cases hok
    apply append_eof_last
    intro hnil
    subst hnil
    exact hne rfl
  case _ => cases hok
  case _ => cases hok

/-- C7 witness: scanning `"("` succeeds with the two tokens
`LeftParen, Eof`, and the theorem applies to it. -/
theorem spec_C7_witness :
    ([Token.new .leftParen (some "(") .nil (Coordinate.new 0 1 1),
      Token.new .eof none .nil (Coordinate.new 0 1 1)].getLast?).map
        Token.token_type = some .eof :=
  spec_C7 "("
    [Token.new .leftParen (some "(") .nil (Coordinate.new 0 1 1),
     Token.new .eof none .nil (Coordinate.new 0 1 1)]
    rfl (by simp)

/-- C7 counterexample: on the empty input, `scan_tokens` succeeds with the
empty token list — there is no trailing `Eof` token, contradicting the
claim's "the sequence is non-empty" for the empty string.  (The source's
own test `test_empty_input` asserts exactly this empty result.) -/
theorem spec_C7_counterexample :
    ¬ (∀ ts : List Token, scan_tokens "" = .ok ts →
        ts ≠ [] ∧ ts.getLast?.map Token.token_type = some .eof) := by
  intro h
  exact (h [] rfl).1 rfl

/-- C8: scanning `"*"` (a `*` not followed by `=`) emits a token whose
lexeme is `"*"` but whose type is `Plus`, not `Star` — the `'*'` arm of
`scan_token` (scanner.rs lines 118–125) constructs
`self.simple_token(TokenType::Plus, …)`.  The source's own test
`test_single_character_tokens` expects `Star` for this input, so this is a
bug in the code.  The greedy two-character form `*=` → `StarEqual` works
as claimed. -/
theorem spec_C8_star_is_plus :
    scan_tokens "*" =
      .ok [Token.new .plus (some "*") .nil (Coordinate.new 0 1 1),
           Token.new .eof none .nil (Coordinate.new 0 1 1)] ∧
    scan_tokens "*=" =
      .ok [Token.new .starEqual (some "*=") .nil (Coordinate.new 0 1 1),
           Token.new .eof none .nil (Coordinate.new 0 1 1)] :=
  ⟨rfl, rfl⟩

/-! ## src/rlox/src/interpreter/primitive.rs — `LoxObject` and `Callable`

The `interpreter/primitive.rs` revision itself is not present in the
sources (only the older top-level `primitive.rs` without `Exit` is); its
variants are reconstructed from every use in `interpreter/visitor.rs` and
`interpreter/native.rs` and from spec §3 (`RuntimeValue`): the
`Exit(RuntimeValue)` variant wraps another object, and `Function` holds an
`Rc<dyn Callable>` whose implementors are `LoxFunction` and `Clock`.  The
`Rc<RefCell<Environment>>` a `LoxFunction` closes over is an index into
the interpreter's environment arena. -/

inductive Callable where
  | loxFunction (name : Option Token) (params : List Token)
      (body : List Stmt) (closure : Nat)
  | clock

inductive LoxObject where
  | number (n : Float)
  | string (s : String)
  | boolean (b : Bool)
  | nil
  | function (f : Callable)
  | exit (v : LoxObject)

/-- `PartialEq for LoxObject` (primitive.rs): same-variant structural
comparison for numbers (IEEE `==`), strings, booleans and nil; every other
pair — functions included — is unequal. -/
def LoxObject.eq_impl : LoxObject → LoxObject → Bool
  | .number n1, .number n2 => n1 == n2
  | .string s1, .string s2 => s1 = s2
  | .boolean b1, .boolean b2 => b1 = b2
  | .nil, .nil => true
  | _, _ => false

/-- `Display for LoxObject`: numbers via `f64` display, `nil`, booleans,
functions as `[__object__]`.  `Exit` is never displayed (its Display
source is absent and theorem `spec_C3` shows it never reaches user
surface); the placeholder below is arbitrary. -/
def LoxObject.display : LoxObject → String
  | .number n => toString n
  | .string s => s
  | .boolean b => if b then "true" else "false"
  | .nil => "nil"
  | .function _ => "[__object__]"
  | .exit _ => "[__exit__]"

/-! ## src/rlox/src/interpreter/errors.rs — `RuntimeError` -/

inductive RuntimeError where
  | invalidMathOp (lhs : String) (op : Token) (rhs : String)
  | invalidComparisonOp (lhs : String) (op : Token) (rhs : String)
  | invalidUnaryOp (op : Token) (operand : String)
  | invalidLogicalOp (op : Token)
  | undefinedVariable (name : Token)
  | uncallable (value : LoxObject) (paren : Token)
  | native (msg : String)

/-! ## src/rlox/src/interpreter/environment.rs

`Environment` nodes live in an arena (`Heap`); an `Rc<RefCell<…>>` handle
is an index.  The `HashMap<String, LoxObject>` is an association list with
replace-on-insert, which has the same `insert`/`get`/`contains_key`
behavior.  `get` and `assign` recurse along the parent chain; the Rust
recursion terminates because parents are always older scopes, so the
embedded versions carry fuel `h + 1`, which suffices whenever every
parent index is smaller than its child's (true of every heap the
interpreter builds). -/

structure Environment where
  values : List (String × LoxObject)
  parent : Option Nat

abbrev Heap := List Environment

/-- `HashMap::insert`: replace the binding in place, or append it. -/
def insertVal (k : String) (v : LoxObject) :
    List (String × LoxObject) → List (String × LoxObject)
  | [] => [(k, v)]
  | (k', v') :: rest =>
    if k' = k then (k, v) :: rest else (k', v') :: insertVal k v rest

/-- `HashMap::get`. -/
def lookupVal (k : String) : List (String × LoxObject) → Option LoxObject
  | [] => none
  | (k', v') :: rest => if k' = k then some v' else lookupVal k rest

/-- `Environment::define`: insert unconditionally into this scope. -/
def env_define (heap : Heap) (h : Nat) (k : String) (v : LoxObject) : Heap :=
  match heap[h]? with
  | none => heap
  | some env => heap.set h { env with values := insertVal k v env.values }

/-- `Environment::get` with explicit chain fuel. -/
def env_get (heap : Heap) : Nat → Nat → String → Option LoxObject
  | 0, _, _ => none
  | fuel + 1, h, k =>
    match heap[h]? with
    | none => none
    | some env =>
      match lookupVal k env.values with
      | some v => some v
      | none =>
        match env.parent with
        | some p => env_get heap fuel p k
        | none => none

/-- `Environment::get` from handle `h` (fuel `h + 1` covers any
strictly-decreasing parent chain). -/
def Environment.get (heap : Heap) (h : Nat) (k : String) : Option LoxObject :=
  env_get heap (h + 1) h k

/-- `Environment::assign` with explicit chain fuel: update the nearest
scope already containing `k`, or fail (`Err(())` becomes `none`). -/
def env_assign (heap : Heap) : Nat → Nat → String → LoxObject → Option Heap
  | 0, _, _, _ => none
  | fuel + 1, h, k, v =>
    match heap[h]? with
    | none => none
    | some env =>
      if (lookupVal k env.values).isSome then
        some (heap.set h { env with values := insertVal k v env.values })
      else
        match env.parent with
        | some p => env_assign heap fuel p k v
        | none => none

/-- `Environment::assign` from handle `h`. -/
def Environment.assign (heap : Heap) (h : Nat) (k : String) (v : LoxObject) :
    Option Heap :=
  env_assign heap (h + 1) h k v

/-- `Environment::new_rc`: append a fresh scope, returning its handle. -/
def env_new (heap : Heap) (parent : Option Nat) : Heap × Nat :=
  (heap ++ [{ values := [], parent := parent }], heap.length)

/-! ## src/rlox/src/interpreter/visitor.rs and native.rs

`LoxVisitor` state: the arena plus the `globals`/`environment` handles.
`print` output and the ambient clock are the two external effects; output
is collected as the list of printed values (formatting is §6 surface, not
relevant to any claim), and `Clock::call` returns the ambient `time`
field.  `IRes.rerr` is a returned `RuntimeError` (Rust `?`),
`IRes.panicked` a Rust panic, `IRes.nofuel` the embedding's out-of-fuel
artifact.  The mutually recursive evaluator functions burn one unit of
fuel per call. -/

structure Interp where
  heap : Heap
  globals : Nat
  environment : Nat
  output : List LoxObject
  time : Float

inductive IRes (α : Type) where
  | ok (a : α)
  | rerr (e : RuntimeError)
  | panicked
  | nofuel

/-- `LoxVisitor::new` / `get_global_env`: scope 0 is `globals` holding
`clock`; scope 1 is the initial `environment`, a child of `globals`. -/
def initInterp : Interp :=
  { heap := [{ values := [("clock", .function .clock)], parent := none },
             { values := [], parent := some 0 }],
    globals := 0, environment := 1, output := [], time := 0.0 }

/-- `is_truthy`: `false` and `nil` are falsy, everything else truthy. -/
def is_truthy : LoxObject → Bool
  | .boolean b => b
  | .nil => false
  | _ => true

/-- `From<Literal> for LoxObject`. -/
def LoxObject.fromLiteral : Literal → LoxObject
  | .number f => .number f
  | .string s => .string s
  | .boolean b => .boolean b
  | .nil => .nil

def either_is_string : LoxObject → LoxObject → Bool
  | .string _, _ => true
  | _, .string _ => true
  | _, _ => false

/-- `concatenate`: `format!("{}{}", left, right)`. -/
def concatenate (left right : LoxObject) : String :=
  left.display ++ right.display

def math_op_with_check (left right : LoxObject) (f : Float → Float → Float) :
    Except Unit LoxObject :=
  match left, right with
  | .number a, .number b => .ok (.number (f a b))
  | _, _ => .error ()

def math_compare_with_check (left right : LoxObject) (f : Float → Float → Bool) :
    Except Unit LoxObject :=
  match left, right with
  | .number a, .number b => .ok (.boolean (f a b))
  | _, _ => .error ()

/-- `get_binary_error` (panics on non-math, non-comparison operators). -/
def get_binary_error (left : LoxObject) (operator : Token) (right : LoxObject) :
    IRes LoxObject :=
  match operator.token_type with
  | .plus | .minus | .star | .slash =>
    .rerr (.invalidMathOp left.display operator right.display)
  | .greater | .greaterEqual | .less | .lessEqual =>
    .rerr (.invalidComparisonOp left.display operator right.display)
  | _ => .panicked

/-- `if result.is_err() { return get_binary_error(…) }` tail of
`apply_binary`. -/
def binary_checked (r : Except Unit LoxObject) (left : LoxObject)
    (operator : Token) (right : LoxObject) : IRes LoxObject :=
  match r with
  | .ok v => .ok v
  | .error _ => get_binary_error left operator right

/-- `apply_binary`. -/
def apply_binary (left : LoxObject) (operator : Token) (right : LoxObject) :
    IRes LoxObject :=
  match operator.token_type with
  | .plus =>
    if either_is_string left right then .ok (.string (concatenate left right))
    else binary_checked (math_op_with_check left right (fun a b => a + b))
      left operator right
  | .minus =>
    binary_checked (math_op_with_check left right (fun a b => a - b))
      left operator right
  | .star =>
    binary_checked (math_op_with_check left right (fun a b => a * b))
      left operator right
  | .slash =>
    binary_checked (math_op_with_check left right (fun a b => a / b))
      left operator right
  | .greater =>
    binary_checked (math_compare_with_check left right (fun a b => decide (a > b)))
      left operator right
  | .greaterEqual =>
    binary_checked (math_compare_with_check left right (fun a b => decide (a ≥ b)))
      left operator right
  | .less =>
    binary_checked (math_compare_with_check left right (fun a b => decide (a < b)))
      left operator right
  | .lessEqual =>
    binary_checked (math_compare_with_check left right (fun a b => decide (a ≤ b)))
      left operator right
  | .bangEqual => .ok (.boolean (!left.eq_impl right))
  | .equalEqual => .ok (.boolean (left.eq_impl right))
  | _ => .panicked

/-- `apply_unary`. -/
def apply_unary (operator : Token) (right : LoxObject) : IRes LoxObject :=
  match operator.token_type with
  | .minus =>
    (match right with
     | .number n => .ok (.number (-n))
     | _ => .rerr (.invalidUnaryOp operator right.display))
  | .bang => .ok (.boolean (!is_truthy right))
  | _ => .panicked

/-- The parameter-binding zip of `LoxFunction::call`:
`params.iter().zip(args.iter())` stops at the shorter list, so extra
arguments are dropped and parameters without arguments stay unbound. -/
def define_params (heap : Heap) (h : Nat) :
    List Token → List LoxObject → Heap
  | param :: ps, value :: vs =>
    define_params (env_define heap h param.lexeme_or_empty value) h ps vs
  | _, _ => heap

mutual

/-- Expression dispatch: `Expr::accept` into the `ExprVisitor` impl of
`LoxVisitor` (`visit_binary` … `visit_function`). -/
def evalExpr : Nat → Expr → Interp → IRes LoxObject × Interp
  | 0, _, st => (.nofuel, st)
  | fuel + 1, e, st =>
    match e with
    | .binary left operator right =>
      -- visit_binary
      (match evalExpr fuel left st with
       | (.ok l, st) =>
         (match evalExpr fuel right st with
          | (.ok r, st) => (apply_binary l operator r, st)
          | (r, st) => (r, st))
       | (r, st) => (r, st))
    | .grouping expression =>
      -- visit_grouping
      evalExpr fuel expression st
    | .literal value =>
      -- visit_literal
      (.ok (LoxObject.fromLiteral value.literal), st)
    | .unary operator right =>
      -- visit_unary
      (match evalExpr fuel right st with
       | (.ok r, st) => (apply_unary operator r, st)
       | (r, st) => (r, st))
    | .variableE name =>
      -- visit_variable
      (name.with_lexeme fun word =>
        match Environment.get st.heap st.environment word with
        | some value => (.ok value, st)
        | none => (.rerr (.undefinedVariable name), st))
    | .assign name value =>
      -- visit_assign — `name.lexeme.clone().unwrap()` panics on a
      -- missing lexeme
      (match evalExpr fuel value st with
       | (.ok v, st) =>
         (match name.lexeme with
          | none => (.panicked, st)
          | some lex =>
            match Environment.assign st.heap st.environment lex v with
            | some heap => (.ok v, { st with heap := heap })
            | none => (.rerr (.undefinedVariable name), st))
       | (r, st) => (r, st))
    | .logical left operator right =>
      -- visit_logical
      (match evalExpr fuel left st with
       | (.ok l, st) =>
         let left_is_truthy := is_truthy l
         (match operator.token_type with
          | .kwOr => if left_is_truthy then (.ok l, st) else evalExpr fuel right st
          | .kwAnd => if left_is_truthy then evalExpr fuel right st else (.ok l, st)
          | _ => (.rerr (.invalidLogicalOp operator), st))
       | (r, st) => (r, st))
    | .call callee paren args =>
      -- visit_call: the argument loop runs BEFORE the callee is
      -- evaluated (visitor.rs lines 137–153)
      (match args_eval fuel args [] st with
       | (.ok eval_args, st) =>
         (match evalExpr fuel callee st with
          | (.ok (.function f), st) => lox_call fuel f eval_args st
          | (.ok other, st) => (.rerr (.uncallable other paren), st)
          | (r, st) => (r, st))
       | (.rerr e, st) => (.rerr e, st)
       | (.panicked, st) => (.panicked, st)
       | (.nofuel, st) => (.nofuel, st))
    | .functionE params body =>
      -- visit_function (expression): capture the *current environment
      -- handle* itself
      (.ok (.function (.loxFunction none params body st.environment)), st)

/-- The evaluation loop over a call's arguments (left to right). -/
def args_eval : Nat → List Expr → List LoxObject → Interp →
    IRes (List LoxObject) × Interp
  | 0, _, _, st => (.nofuel, st)
  | _ + 1, [], acc, st => (.ok acc, st)
  | fuel + 1, arg :: rest, acc, st =>
    match evalExpr fuel arg st with
    | (.ok v, st) => args_eval fuel rest (acc ++ [v]) st
    | (.rerr e, st) => (.rerr e, st)
    | (.panicked, st) => (.panicked, st)
    | (.nofuel, st) => (.nofuel, st)

/-- `Callable::call`: `LoxFunction::call` (native.rs lines 42–60) or
`Clock::call`. -/
def lox_call : Nat → Callable → List LoxObject → Interp →
    IRes LoxObject × Interp
  | 0, _, _, st => (.nofuel, st)
  | fuel + 1, c, args, st =>
    match c with
    | .clock => (.ok (.number st.time), st)
    | .loxFunction _name params body closure =>
      let hn := env_new st.heap (some closure)
      let heap := define_params hn.1 hn.2 params args
      (match exec_block fuel hn.2 body { st with heap := heap } with
       | (.ok (.exit v), st) => (.ok v, st)
       | (.ok v, st) => (.ok v, st)
       | (r, st) => (r, st))

/-- `LoxVisitor::execute_block`: swap in `new_env`, run the statements,
and restore the original environment on every `Exit`, error and
fall-through path. -/
def exec_block : Nat → Nat → List Stmt → Interp → IRes LoxObject × Interp
  | 0, _, _, st => (.nofuel, st)
  | fuel + 1, new_env, statements, st =>
    let origin := st.environment
    let st := { st with environment := new_env }
    match exec_block_loop fuel statements st with
    | (.ok v, st) => (.ok v, { st with environment := origin })
    | (.rerr e, st) => (.rerr e, { st with environment := origin })
    | (r, st) => (r, st)

/-- The statement loop inside `execute_block`: an `Ok(Exit(v))` returns
immediately, an error propagates, anything else continues; falling off
the end yields `Nil`. -/
def exec_block_loop : Nat → List Stmt → Interp → IRes LoxObject × Interp
  | 0, _, st => (.nofuel, st)
  | _ + 1, [], st => (.ok .nil, st)
  | fuel + 1, stmt :: rest, st =>
    match execStmt fuel stmt st with
    | (.ok (.exit v), st) => (.ok (.exit v), st)
    | (.rerr e, st) => (.rerr e, st)
    | (.ok _, st) => exec_block_loop fuel rest st
    | (.panicked, st) => (.panicked, st)
    | (.nofuel, st) => (.nofuel, st)

/-- The `while is_truthy(cond) { if is_truthy(body-result) { break } }`
loop of `visit_while`: *any* truthy statement result — i.e. any
`Exit(_)` — stops the loop, and the whole statement yields `Nil`. -/
def while_loop : Nat → Expr → Stmt → Interp → IRes LoxObject × Interp
  | 0, _, _, st => (.nofuel, st)
  | fuel + 1, condition, body, st =>
    match evalExpr fuel condition st with
    | (.ok c, st) =>
      if is_truthy c then
        match execStmt fuel body st with
        | (.ok bv, st) =>
          if is_truthy bv then (.ok .nil, st)
          else while_loop fuel condition body st
        | (r, st) => (r, st)
      else (.ok .nil, st)
    | (r, st) => (r, st)

/-- Statement dispatch: `Stmt::accept` into the `StmtVisitor` impl of
`LoxVisitor` (`visit_expression` … `visit_return`). -/
def execStmt : Nat → Stmt → Interp → IRes LoxObject × Interp
  | 0, _, st => (.nofuel, st)
  | fuel + 1, s, st =>
    match s with
    | .expression expression =>
      -- visit_expression
      (match evalExpr fuel expression st with
       | (.ok _, st) => (.ok .nil, st)
       | (r, st) => (r, st))
    | .print expression =>
      -- visit_print: `println!("{}", value)` appends to the output sink
      (match evalExpr fuel expression st with
       | (.ok value, st) => (.ok .nil, { st with output := st.output ++ [value] })
       | (r, st) => (r, st))
    | .varS name initializer =>
      -- visit_var
      (match (match initializer with
              | some e => evalExpr fuel e st
              | none => (.ok .nil, st)) with
       | (.ok value, st) =>
         let heap := env_define st.heap st.environment
           (name.with_lexeme (fun lex => lex)) value
         (.ok .nil, { st with heap := heap })
       | (r, st) => (r, st))
    | .block statements =>
      -- visit_block / create_new_environment
      let hn := env_new st.heap (some st.environment)
      exec_block fuel hn.2 statements { st with heap := hn.1 }
    | .ifS condition then_branch else_branch =>
      -- visit_if
      (match evalExpr fuel condition st with
       | (.ok c, st) =>
         if is_truthy c then execStmt fuel then_branch st
         else
           (match else_branch with
            | some e => execStmt fuel e st
            | none => (.ok .nil, st))
       | (r, st) => (r, st))
    | .whileS condition body =>
      -- visit_while
      while_loop fuel condition body st
    | .breakS _ =>
      -- visit_break
      (.ok (.exit .nil), st)
    | .ret _keyword value =>
      -- visit_return
      (match (match value with
              | some e => evalExpr fuel e st
              | none => (.ok .nil, st)) with
       | (.ok v, st) => (.ok (.exit v), st)
       | (r, st) => (r, st))
    | .functionS name params body =>
      -- visit_function (statement): define under the name's lexeme,
      -- closing over the current environment handle
      let map_key_name := name.lexeme_or_empty
      let func := Callable.loxFunction (some name) params body st.environment
      let heap := env_define st.heap st.environment map_key_name (.function func)
      (.ok .nil, { st with heap := heap })

end

/-- `LoxVisitor::interpret`: run the top-level statements in order,
short-circuiting on the first runtime error and discarding every `Ok`
value (including `Exit`s from top-level `return`s). -/
def interpret_loop : Nat → List Stmt → Interp → IRes Unit × Interp
  | 0, _, st => (.nofuel, st)
  | _ + 1, [], st => (.ok (), st)
  | fuel + 1, stmt :: rest, st =>
    match execStmt fuel stmt st with
    | (.ok _, st) => interpret_loop fuel rest st
    | (.rerr e, st) => (.rerr e, st)
    | (.panicked, st) => (.panicked, st)
    | (.nofuel, st) => (.nofuel, st)

/-- `interpret` from the freshly constructed interpreter state, with the
given fuel. -/
def interpret (fuel : Nat) (stmts : List Stmt) : IRes Unit × Interp :=
  interpret_loop fuel stmts initInterp

/-! ## Specification-side definitions -/

/-- The call evaluation order as the amended spec states it: evaluate
every argument left to right first, then the callee, then dispatch —
invoking a non-`Function` value is the `Uncallable` error.  Written from
the amended claim's words, to be compared with the `Expr.call` arm of
`evalExpr`. -/
def call_semantics_amended (fuel : Nat) (callee : Expr) (paren : Token)
    (args : List Expr) (st : Interp) : IRes LoxObject × Interp :=
  match args_eval fuel args [] st with
  | (.ok vs, st) =>
    (match evalExpr fuel callee st with
     | (.ok (.function f), st) => lox_call fuel f vs st
     | (.ok other, st) => (.rerr (.uncallable other paren), st)
     | (r, st) => (r, st))
  | (.rerr e, st) => (.rerr e, st)
  | (.panicked, st) => (.panicked, st)
  | (.nofuel, st) => (.nofuel, st)

/-- Spec-side: does any scope along the parent chain from `h` bind `k`? -/
def chain_contains (heap : Heap) : Nat → Nat → String → Bool
  | 0, _, _ => false
  | fuel + 1, h, k =>
    match heap[h]? with
    | none => false
    | some env =>
      (lookupVal k env.values).isSome ||
        (match env.parent with
         | some p => chain_contains heap fuel p k
         | none => false)

/-- Spec-side: the *nearest* scope along the parent chain from `h` that
already binds `k` (the first one the walk meets). -/
def find_scope (heap : Heap) : Nat → Nat → String → Option Nat
  | 0, _, _ => none
  | fuel + 1, h, k =>
    match heap[h]? with
    | none => none
    | some env =>
      if (lookupVal k env.values).isSome then some h
      else
        match env.parent with
        | some p => find_scope heap fuel p k
        | none => none

/-- Well-formed arena: every parent handle points at an older (smaller)
index.  `new_rc` only ever links a fresh scope to an existing one, so
every heap the interpreter builds satisfies this. -/
def WfHeap (heap : Heap) : Prop :=
  ∀ i (env : Environment), heap[i]? = some env → ∀ p, env.parent = some p → p < i

def is_exit : LoxObject → Bool
  | .exit _ => true
  | _ => false

/-- The C3 invariant on stored values: no environment in the arena holds
an `Exit`. -/
def HeapExitFree (heap : Heap) : Prop :=
  ∀ env ∈ heap, ∀ kv ∈ env.values, is_exit kv.2 = false

/-- Statement results are `Nil` or a single `Exit` wrapping an exit-free
value. -/
def stmt_ok_val (v : LoxObject) : Prop :=
  v = .nil ∨ ∃ w, is_exit w = false ∧ v = .exit w

/-- The C3 induction package over every evaluator function at a given
fuel: expression results and call arguments are exit-free, statement and
block results are `Nil`-or-single-`Exit`, loops yield `Nil`, and no step
ever stores an `Exit` in any environment. -/
def MasterP (fuel : Nat) : Prop :=
  (∀ e st r st', HeapExitFree st.heap → evalExpr fuel e st = (r, st') →
     HeapExitFree st'.heap ∧ ∀ v, r = .ok v → is_exit v = false) ∧
  (∀ argsE acc st r st', HeapExitFree st.heap →
     (∀ a ∈ acc, is_exit a = false) →
     args_eval fuel argsE acc st = (r, st') →
     HeapExitFree st'.heap ∧ ∀ vs, r = .ok vs → ∀ a ∈ vs, is_exit a = false) ∧
  (∀ c args st r st', HeapExitFree st.heap →
     (∀ a ∈ args, is_exit a = false) →
     lox_call fuel c args st = (r, st') →
     HeapExitFree st'.heap ∧ ∀ v, r = .ok v → is_exit v = false) ∧
  (∀ ne stmts st r st', HeapExitFree st.heap →
     exec_block fuel ne stmts st = (r, st') →
     HeapExitFree st'.heap ∧ ∀ v, r = .ok v → stmt_ok_val v) ∧
  (∀ stmts st r st', HeapExitFree st.heap →
     exec_block_loop fuel stmts st = (r, st') →
     HeapExitFree st'.heap ∧ ∀ v, r = .ok v → stmt_ok_val v) ∧
  (∀ cond body st r st', HeapExitFree st.heap →
     while_loop fuel cond body st = (r, st') →
     HeapExitFree st'.heap ∧ ∀ v, r = .ok v → v = .nil) ∧
  (∀ s st r st', HeapExitFree st.heap → execStmt fuel s st = (r, st') →
     HeapExitFree st'.heap ∧ ∀ v, r = .ok v → stmt_ok_val v)

/-! ## Witness inputs for the evaluator claims -/

def tkFalse : Token := Token.new .kwFalse (some "false") (.boolean false) co0

def litTrue : Expr := Expr.literal tkTrue

def litFalse : Expr := Expr.literal tkFalse

def idTok (s : String) : Token := Token.new .identifier (some s) .nil co0

def retTok : Token := tk .kwReturn "return"

def parenTok : Token := tk .rightParen ")"

/-- A literal token carrying an arbitrary payload (the evaluator's
`visit_literal` reads only the `literal` field). -/
def litTok (l : Literal) : Token := Token.new .number (some "lit") l co0

/-- `fun f() { while (true) { return true; } return false; } print f();` -/
def progC1 : List Stmt :=
  [Stmt.functionS (idTok "f") []
     [Stmt.whileS litTrue (Stmt.block [Stmt.ret retTok (some litTrue)]),
      Stmt.ret retTok (some litFalse)],
   Stmt.print (Expr.call (Expr.variableE (idTok "f")) parenTok [])]

/-- `while (true) { break; } print true;` -/
def progC1break : List Stmt :=
  [Stmt.whileS litTrue (Stmt.block [Stmt.breakS (tk .kwBreak "break")]),
   Stmt.print litTrue]

/-- `var x = true; nosuch(x = false);` — the argument has a visible side
effect and the callee is undefined. -/
def progC4 : List Stmt :=
  [Stmt.varS (idTok "x") (some litTrue),
   Stmt.expression (Expr.call (Expr.variableE (idTok "nosuch")) parenTok
     [Expr.assign (idTok "x") litFalse])]

/-- `fun f(a) { print a; } f();` — one parameter, zero arguments. -/
def progC6 : List Stmt :=
  [Stmt.functionS (idTok "f") [idTok "a"]
     [Stmt.print (Expr.variableE (idTok "a"))],
   Stmt.expression (Expr.call (Expr.variableE (idTok "f")) parenTok [])]

/-- A two-scope witness arena: scope 0 binds `"a"`, scope 1 is its empty
child. -/
def heapW : Heap :=
  [{ values := [("a", .nil)], parent := none },
   { values := [], parent := some 0 }]

/-- `var a = <v1>; fun f() { print a; } a = <v2>; f();` with arbitrary
literal payloads. -/
def progC2a (v1 v2 : Literal) : List Stmt :=
  [Stmt.varS (idTok "a") (some (Expr.literal (litTok v1))),
   Stmt.functionS (idTok "f") [] [Stmt.print (Expr.variableE (idTok "a"))],
   Stmt.expression (Expr.assign (idTok "a") (Expr.literal (litTok v2))),
   Stmt.expression (Expr.call (Expr.variableE (idTok "f")) parenTok [])]

/-- `var g; { var x = <v>; fun h() { print x; } g = h; } g();` — the
closure `h` escapes its block through `g` and is called after the block
has exited. -/
def progC2b (v : Literal) : List Stmt :=
  [Stmt.varS (idTok "g") none,
   Stmt.block
     [Stmt.varS (idTok "x") (some (Expr.literal (litTok v))),
      Stmt.functionS (idTok "h") [] [Stmt.print (Expr.variableE (idTok "x"))],
      Stmt.expression (Expr.assign (idTok "g") (Expr.variableE (idTok "h")))],
   Stmt.expression (Expr.call (Expr.variableE (idTok "g")) parenTok [])]

end Rlox

namespace Rlox

/-! ## Parser theorems (C5)

`toksSingle`, `toksNested`, `toksTriple` are the token sequences of the
programs `while (true) break;`, `while (true) while (true) break;` and
`while (true) while (true) while (true) break;` (all coordinates fixed at
1:1, which the parser never inspects). -/

set_option maxHeartbeats 4000000

/-- C5: a `break` nested inside two loops is *rejected*.  Because
`toggle_loop` toggles the `is_in_loop` boolean rather than counting or
saving/restoring it, entering the second `while` flips the flag back to
`false`, so the doubly nested `break` raises the very error whose message
says a break must occur inside a loop — while a singly nested (and, by
parity, a triply nested) `break` parses fine.  The failing input is
`while (true) while (true) break;`. -/
theorem spec_C5_nested_break_rejected :
    parse toksNested =
      .ok (.error [ParseError.unexpectedToken
        "\"break\" can only occur inside a loop" "break" co0]) ∧
    parse toksSingle =
      .ok (.ok [Stmt.whileS (Expr.literal tkTrue)
        (Stmt.breakS (tk .kwBreak "break"))]) ∧
    (parse toksTriple matches .ok (.ok _)) :=
  ⟨rfl, rfl, by decide⟩

end Rlox

namespace Rlox

/-! ## Evaluator theorems: C1, C2, C4, C6, C10 -/

set_option maxHeartbeats 12000000

/-- C1: a `return` whose `Exit(v)` bubbles into `visit_while` is
swallowed: `visit_while` breaks its host loop on *any* truthy body result
(every `Exit`) and yields `Nil`, so the `Exit(v)` is not re-propagated
and the enclosing call does not return `v`.  Running
`fun f() { while (true) { return true; } return false; } print f();`
prints `false` — the `return true` was collapsed into a bare loop break —
where the claim requires `f()` to return `true`.  The `break` half of the
claim does hold (second pair of conjuncts: the loop stops and execution
continues normally). -/
theorem spec_C1_return_swallowed_by_while :
    (interpret 30 progC1).2.output = [.boolean false] ∧
    (interpret 30 progC1).1 = .ok () ∧
    (interpret 30 progC1break).2.output = [.boolean true] ∧
    (interpret 30 progC1break).1 = .ok () :=
  ⟨rfl, rfl, rfl, rfl⟩

/-- C2: closures share the defining environment.  (i) In
`var a = v1; fun f() { print a; } a = v2; f();` the call prints the
*current* value `v2`, not the captured-time `v1`, for arbitrary literal
payloads `v1, v2`.  (ii) In `var g; { var x = v; fun h() { print x; }
g = h; } g();` the closure built inside the block is called after the
block has exited and still reads the block's binding `x = v`.  (iii)
`visit_function` captures the current environment *handle* itself (no
copy), which is what makes both behaviors sharing-based. -/
theorem spec_C2_closure_shares_environment (v1 v2 v : Literal) :
    ((interpret 30 (progC2a v1 v2)).2.output = [LoxObject.fromLiteral v2] ∧
     (interpret 30 (progC2a v1 v2)).1 = .ok ()) ∧
    ((interpret 30 (progC2b v)).2.output = [LoxObject.fromLiteral v] ∧
     (interpret 30 (progC2b v)).1 = .ok ()) ∧
    (∀ (params : List Token) (body : List Stmt) (st : Interp) (fuel : Nat),
      evalExpr (fuel + 1) (Expr.functionE params body) st =
        (.ok (.function (.loxFunction none params body st.environment)), st)) :=
  ⟨⟨rfl, rfl⟩, ⟨rfl, rfl⟩, fun _ _ _ _ => rfl⟩

/-- C4 (amended): `visit_call` evaluates the *arguments* left to right
first, then the callee, then invokes the callable (a non-`Function`
callee yields `Uncallable`) — exactly `call_semantics_amended`, the
amended order written from the spec side. -/
theorem spec_C4_args_before_callee (fuel : Nat) (callee : Expr)
    (paren : Token) (args : List Expr) (st : Interp) :
    evalExpr (fuel + 1) (Expr.call callee paren args) st =
      call_semantics_amended fuel callee paren args st := rfl

/-- C4 counterexample: in `var x = true; nosuch(x = false);` evaluating
the callee `nosuch` raises `UndefinedVariable` — yet the argument's side
effect `x = false` has already happened (the claim, which puts the callee
first, says no argument side effect may occur when the callee errors). -/
theorem spec_C4_counterexample :
    (interpret 30 progC4).1 = .rerr (.undefinedVariable (idTok "nosuch")) ∧
    Environment.get (interpret 30 progC4).2.heap 1 "x" =
      some (.boolean false) :=
  ⟨rfl, rfl⟩

theorem define_params_take (params : List Token) (args : List LoxObject)
    (heap : Heap) (h : Nat) :
    define_params heap h params args =
      define_params heap h params (args.take params.length) := by
  induction params generalizing args heap with
  | nil => cases args <;> rfl
  | cons p ps ih =>
    cases args with
    | nil => rfl
    | cons a as => simpa [define_params] using ih as (env_define heap h p.lexeme_or_empty a)

/-- C6 (amended): no arity check is performed.  Extra arguments never
influence a call (`lox_call` only reads the first `params.length` of
them), and with fewer arguments the call still proceeds — but a
parameter without an argument is simply *unbound* in the frame, so
referencing it yields `UndefinedVariable` (not `Nil`):
`fun f(a) { print a; } f();` errors on the reference to `a` after the
call has started, having printed nothing. -/
theorem spec_C6_no_arity_check :
    (∀ (fuel : Nat) (name : Option Token) (params : List Token)
       (body : List Stmt) (closure : Nat) (args : List LoxObject)
       (st : Interp),
       lox_call fuel (.loxFunction name params body closure) args st =
         lox_call fuel (.loxFunction name params body closure)
           (args.take params.length) st) ∧
    (interpret 30 progC6).1 = .rerr (.undefinedVariable (idTok "a")) ∧
    (interpret 30 progC6).2.output = [] := by
  refine ⟨fun fuel name params body closure args st => ?_, rfl, rfl⟩
  cases fuel with
  | zero => rfl
  | succ f =>
    simp only [lox_call]
    rw [define_params_take]

/-- C6 counterexample: the claim's "a parameter with no corresponding
argument reads as Nil if referenced" is false — `fun f(a) { print a; }
f();` does not print `nil`; it aborts with `UndefinedVariable "a"` and
prints nothing. -/
theorem spec_C6_counterexample :
    ¬ ((interpret 30 progC6).1 = .ok () ∧
       (interpret 30 progC6).2.output = [.nil]) := by
  intro h
  have h0 : (interpret 30 progC6).2.output = ([] : List LoxObject) := rfl
  rw [h0] at h
  simp at h

/-- C10: a top-level `return` does not stop interpretation: its value
expression is evaluated, `visit_return` wraps the value in `Exit`, and
`interpret`'s loop discards the `Ok(Exit(v))` and continues with every
remaining statement. -/
theorem spec_C10_toplevel_return_continues (fuel : Nat) (kw : Token)
    (e : Expr) (rest : List Stmt) (st st1 : Interp) (v : LoxObject)
    (h : evalExpr fuel e st = (.ok v, st1)) :
    execStmt (fuel + 1) (Stmt.ret kw (some e)) st = (.ok (.exit v), st1) ∧
    interpret_loop (fuel + 2) (Stmt.ret kw (some e) :: rest) st =
      interpret_loop (fuel + 1) rest st1 := by
  have h1 : execStmt (fuel + 1) (Stmt.ret kw (some e)) st =
      (.ok (.exit v), st1) := by
    simp only [execStmt, h]
  exact ⟨h1, by simp only [interpret_loop, h1]⟩

/-- C10 witness: `return true; print true;` — the return's value is
evaluated, the `Exit` is produced and discarded, and the `print`
statement still runs. -/
theorem spec_C10_witness :
    execStmt 6 (Stmt.ret retTok (some litTrue)) initInterp =
      (.ok (.exit (.boolean true)), initInterp) ∧
    interpret_loop 7 (Stmt.ret retTok (some litTrue) :: [Stmt.print litTrue])
        initInterp =
      interpret_loop 6 [Stmt.print litTrue] initInterp :=
  spec_C10_toplevel_return_continues 5 retTok litTrue [Stmt.print litTrue]
    initInterp initInterp (.boolean true) rfl

end Rlox

namespace Rlox

/-! ## Environment theorems (C9) -/

set_option maxHeartbeats 2000000

/-- One induction characterizing `env_assign` against the spec-side
`chain_contains` and `find_scope` walks, for any fuel covering the
handle (well-formed arenas have strictly decreasing parent chains). -/
theorem env_assign_characterization (heap : Heap) (k : String)
    (v : LoxObject) (hwf : WfHeap heap) :
    ∀ fuel h, h < fuel →
      ((env_assign heap fuel h k v = none ↔
          chain_contains heap fuel h k = false) ∧
       (∀ i, find_scope heap fuel h k = some i →
          ∃ env, heap[i]? = some env ∧
            (lookupVal k env.values).isSome = true ∧
            env_assign heap fuel h k v =
              some (heap.set i { env with values := insertVal k v env.values }))) := by
  intro fuel
  induction fuel with
  | zero => intro h hh; exact absurd hh (Nat.not_lt_zero h)
  | succ fuel ih =>
    intro h hh
    cases hget : heap[h]? with
    | none =>
      refine ⟨by simp [env_assign, chain_contains, hget], ?_⟩
      intro i hi
      simp [find_scope, hget] at hi
    | some env =>
      cases hlk : (lookupVal k env.values).isSome with
      | true =>
        refine ⟨by simp [env_assign, chain_contains, hget, hlk], ?_⟩
        intro i hi
        simp [find_scope, hget, hlk] at hi
        subst hi
        exact ⟨env, hget, hlk, by simp [env_assign, hget, hlk]⟩
      | false =>
        cases hp : env.parent with
        | none =>
          refine ⟨by simp [env_assign, chain_contains, hget, hlk, hp], ?_⟩
          intro i hi
          simp [find_scope, hget, hlk, hp] at hi
        | some p =>
          have hph : p < h := hwf h env hget p hp
          have hpf : p < fuel := lt_of_lt_of_le hph (Nat.lt_succ_iff.mp hh)
          obtain ⟨iff1, spec1⟩ := ih p hpf
          refine ⟨by simpa [env_assign, chain_contains, hget, hlk, hp] using iff1, ?_⟩
          intro i hi
          simp only [find_scope, hget, hlk, hp] at hi
          rw [if_neg (by simp [hlk])] at hi
          obtain ⟨env', h1, h2, h3⟩ := spec1 i hi
          exact ⟨env', h1, h2, by simpa [env_assign, hget, hlk, hp] using h3⟩

/-- C9: on a well-formed arena, `assign(k, v)` from handle `h` fails
exactly when no scope in the whole parent chain binds `k`; and when the
walk finds a nearest binding scope `i`, the result is the arena with
exactly scope `i`'s map updated (`insert` of the new value) and every
other scope untouched. -/
theorem spec_C9_assign_nearest (heap : Heap) (h : Nat) (k : String)
    (v : LoxObject) (hwf : WfHeap heap) :
    (Environment.assign heap h k v = none ↔
       chain_contains heap (h + 1) h k = false) ∧
    (∀ i, find_scope heap (h + 1) h k = some i →
       ∃ env, heap[i]? = some env ∧
         (lookupVal k env.values).isSome = true ∧
         Environment.assign heap h k v =
           some (heap.set i { env with values := insertVal k v env.values }) ∧
         ∀ j, j ≠ i →
           (heap.set i { env with values := insertVal k v env.values })[j]? =
             heap[j]?) := by
  obtain ⟨iff1, spec1⟩ :=
    env_assign_characterization heap k v hwf (h + 1) h (Nat.lt_succ_self h)
  refine ⟨iff1, ?_⟩
  intro i hi
  obtain ⟨env, h1, h2, h3⟩ := spec1 i hi
  exact ⟨env, h1, h2, h3, fun j hji => List.getElem?_set_ne (fun e => hji e.symm)⟩

/-- The witness arena is well-formed. -/
theorem wfW : WfHeap heapW := by
  intro i env hi p hp
  match i with
  | 0 => simp [heapW] at hi; subst hi; simp at hp
  | 1 => simp [heapW] at hi; subst hi; simp [heapW] at hp; omega
  | n + 2 => simp [heapW] at hi

/-- C9 witness: from the child scope of `heapW`, assigning an unbound
name fails, and assigning `"a"` updates the root scope's binding in
place. -/
theorem spec_C9_witness :
    Environment.assign heapW 1 "zz" .nil = none ∧
    Environment.assign heapW 1 "a" (.boolean true) =
      some (heapW.set 0 { values := insertVal "a" (.boolean true) [("a", .nil)],
                          parent := none }) := by
  constructor
  · exact (spec_C9_assign_nearest heapW 1 "zz" .nil wfW).1.mpr rfl
  · obtain ⟨env, h1, _, h3, _⟩ :=
      (spec_C9_assign_nearest heapW 1 "a" (.boolean true) wfW).2 0 rfl
    have henv : env = { values := [("a", LoxObject.nil)], parent := none } := by
      have : (heapW[0]?) = some { values := [("a", LoxObject.nil)], parent := none } := rfl
      rw [this] at h1
      exact (Option.some.inj h1).symm
    rw [henv] at h3
    exact h3

end Rlox

namespace Rlox

/-! ## Exit-confinement theorems (C3) -/

set_option maxHeartbeats 2000000

theorem mem_of_getElem?_some {α : Type} {l : List α} :
    ∀ {i : Nat} {a : α}, l[i]? = some a → a ∈ l := by
  induction l with
  | nil => intro i a h; cases i <;> cases h
  | cons x xs ih =>
    intro i a h
    cases i with
    | zero =>
      simp only [List.getElem?_cons_zero, Option.some.injEq] at h
      subst h
      exact List.mem_cons_self x xs
    | succ n =>
      simp only [List.getElem?_cons_succ] at h
      exact List.mem_cons_of_mem x (ih h)

theorem lookupVal_exit_free {l : List (String × LoxObject)}
    (hl : ∀ kv ∈ l, is_exit kv.2 = false) {k : String} {v : LoxObject}
    (h : lookupVal k l = some v) : is_exit v = false := by
  induction l with
  | nil => cases h
  | cons kv rest ih =>
    simp only [lookupVal] at h
    by_cases hk : kv.1 = k
    · rw [if_pos hk] at h
      cases h
      exact hl kv (List.mem_cons_self kv rest)
    · rw [if_neg hk] at h
      exact ih (fun kv' hkv' => hl kv' (List.mem_cons_of_mem kv hkv')) h

theorem insertVal_exit_free {l : List (String × LoxObject)}
    (hl : ∀ kv ∈ l, is_exit kv.2 = false) {k : String} {v : LoxObject}
    (hv : is_exit v = false) :
    ∀ kv ∈ insertVal k v l, is_exit kv.2 = false := by
  induction l with
  | nil =>
    intro kv hkv
    simp only [insertVal, List.mem_singleton] at hkv
    subst hkv
    exact hv
  | cons kv0 rest ih =>
    intro kv hkv
    simp only [insertVal] at hkv
    by_cases hk : kv0.1 = k
    · rw [if_pos hk] at hkv
      rcases List.mem_cons.mp hkv with h | h
      · subst h; exact hv
      · exact hl kv (List.mem_cons_of_mem kv0 h)
    · rw [if_neg hk] at hkv
      rcases List.mem_cons.mp hkv with h | h
      · subst h; exact hl kv0 (List.mem_cons_self kv0 rest)
      · exact ih (fun kv' hkv' => hl kv' (List.mem_cons_of_mem kv0 hkv')) kv h

theorem heapExitFree_define {heap : Heap} (hst : HeapExitFree heap)
    {v : LoxObject} (hv : is_exit v = false) (h : Nat) (k : String) :
    HeapExitFree (env_define heap h k v) := by
  unfold env_define
  cases hget : heap[h]? with
  | none => exact hst
  | some env =>
    intro env' henv' kv hkv
    rcases List.mem_or_eq_of_mem_set henv' with hmem | rfl
    · exact hst env' hmem kv hkv
    · exact insertVal_exit_free
        (hst env (mem_of_getElem?_some hget)) hv kv hkv

theorem heapExitFree_env_get {heap : Heap} (hst : HeapExitFree heap) :
    ∀ fuel h k v, env_get heap fuel h k = some v → is_exit v = false := by
  intro fuel
  induction fuel with
  | zero => intro h k v hv; cases hv
  | succ fuel ih =>
    intro h k v hv
    simp only [env_get] at hv
    cases hget : heap[h]? with
    | none => rw [hget] at hv; cases hv
    | some env =>
      rw [hget] at hv
      dsimp only at hv
      cases hlk : lookupVal k env.values with
      | some w =>
        rw [hlk] at hv
        cases hv
        exact lookupVal_exit_free (hst env (mem_of_getElem?_some hget)) hlk
      | none =>
        rw [hlk] at hv
        cases hp : env.parent with
        | some p => rw [hp] at hv; exact ih p k v hv
        | none => rw [hp] at hv; cases hv

theorem heapExitFree_get {heap : Heap} (hst : HeapExitFree heap)
    {h : Nat} {k : String} {v : LoxObject}
    (hv : Environment.get heap h k = some v) : is_exit v = false :=
  heapExitFree_env_get hst (h + 1) h k v hv

theorem heapExitFree_env_assign {heap : Heap} (hst : HeapExitFree heap)
    {v : LoxObject} (hv : is_exit v = false) :
    ∀ fuel h k heap', env_assign heap fuel h k v = some heap' →
      HeapExitFree heap' := by
  intro fuel
  induction fuel with
  | zero => intro h k heap' hh; cases hh
  | succ fuel ih =>
    intro h k heap' hh
    simp only [env_assign] at hh
    cases hget : heap[h]? with
    | none => rw [hget] at hh; cases hh
    | some env =>
      rw [hget] at hh
      dsimp only at hh
      by_cases hlk : (lookupVal k env.values).isSome = true
      · rw [if_pos hlk] at hh
        cases hh
        intro env' henv' kv hkv
        rcases List.mem_or_eq_of_mem_set henv' with hmem | rfl
        · exact hst env' hmem kv hkv
        · exact insertVal_exit_free
            (hst env (mem_of_getElem?_some hget)) hv kv hkv
      · rw [if_neg hlk] at hh
        cases hp : env.parent with
        | some p => rw [hp] at hh; exact ih p k heap' hh
        | none => rw [hp] at hh; cases hh

theorem heapExitFree_assign {heap heap' : Heap} (hst : HeapExitFree heap)
    {v : LoxObject} (hv : is_exit v = false) {h : Nat} {k : String}
    (hh : Environment.assign heap h k v = some heap') : HeapExitFree heap' :=
  heapExitFree_env_assign hst hv (h + 1) h k heap' hh

theorem heapExitFree_env_new {heap : Heap} (hst : HeapExitFree heap)
    (p : Option Nat) : HeapExitFree (env_new heap p).1 := by
  intro env henv kv hkv
  rcases List.mem_append.mp henv with hmem | hmem
  · exact hst env hmem kv hkv
  · simp only [List.mem_singleton] at hmem
    subst hmem
    cases hkv

theorem heapExitFree_define_params (h : Nat) :
    ∀ params args (heap : Heap), HeapExitFree heap →
      (∀ a ∈ args, is_exit a = false) →
      HeapExitFree (define_params heap h params args) := by
  intro params
  induction params with
  | nil => intro args heap hst _; cases args <;> exact hst
  | cons p ps ih =>
    intro args heap hst hargs
    cases args with
    | nil => exact hst
    | cons a as =>
      simp only [define_params]
      exact ih as (env_define heap h p.lexeme_or_empty a)
        (heapExitFree_define hst (hargs a (List.mem_cons_self a as)) h
          p.lexeme_or_empty)
        (fun a' ha' => hargs a' (List.mem_cons_of_mem a ha'))

end Rlox

namespace Rlox

set_option maxHeartbeats 2000000

theorem get_binary_error_not_ok (l : LoxObject) (op : Token) (r : LoxObject)
    (v : LoxObject) : get_binary_error l op r ≠ .ok v := by
  unfold get_binary_error
  split <;> intro h <;> cases h

theorem binary_checked_ok {res : Except Unit LoxObject} {l : LoxObject}
    {op : Token} {r v : LoxObject}
    (h : binary_checked res l op r = .ok v) : res = .ok v := by
  cases res with
  | ok w => cases h; rfl
  | error e => exact absurd h (get_binary_error_not_ok l op r v)

theorem math_op_ok {l r : LoxObject} {f : Float → Float → Float}
    {v : LoxObject} (h : math_op_with_check l r f = .ok v) :
    is_exit v = false := by
  unfold math_op_with_check at h
  split at h
  · cases h; rfl
  · cases h

theorem math_compare_ok {l r : LoxObject} {f : Float → Float → Bool}
    {v : LoxObject} (h : math_compare_with_check l r f = .ok v) :
    is_exit v = false := by
  unfold math_compare_with_check at h
  split at h
  · cases h; rfl
  · cases h

theorem apply_binary_ok (l : LoxObject) (op : Token) (r v : LoxObject)
    (h : apply_binary l op r = .ok v) : is_exit v = false := by
  unfold apply_binary at h
  split at h
  · split at h
    · cases h; rfl
    · exact math_op_ok (binary_checked_ok h)
  · exact math_op_ok (binary_checked_ok h)
  · exact math_op_ok (binary_checked_ok h)
  · exact math_op_ok (binary_checked_ok h)
  · exact math_compare_ok (binary_checked_ok h)
  · exact math_compare_ok (binary_checked_ok h)
  · exact math_compare_ok (binary_checked_ok h)
  · exact math_compare_ok (binary_checked_ok h)
  · cases h; rfl
  · cases h; rfl
  · cases h

theorem apply_unary_ok (op : Token) (r v : LoxObject)
    (h : apply_unary op r = .ok v) : is_exit v = false := by
  unfold apply_unary at h
  split at h
  · split at h
    · cases h; rfl
    · cases h
  · cases h; rfl
  · cases h

theorem fromLiteral_exit_free (l : Literal) :
    is_exit (LoxObject.fromLiteral l) = false := by
  cases l <;> rfl

end Rlox

namespace Rlox

set_option maxHeartbeats 2000000

theorem args_eval_step (fuel : Nat) (ih : MasterP fuel) :
    ∀ argsE acc st r st', HeapExitFree st.heap →
      (∀ a ∈ acc, is_exit a = false) →
      args_eval (fuel + 1) argsE acc st = (r, st') →
      HeapExitFree st'.heap ∧
        ∀ vs, r = .ok vs → ∀ a ∈ vs, is_exit a = false := by
  obtain ⟨ihE, ihA, _, _, _, _, _⟩ := ih
  intro argsE acc st r st' hst hacc heq
  cases argsE with
  | nil =>
    simp only [args_eval] at heq
    injection heq with h1 h2
    subst h1; subst h2
    exact ⟨hst, fun vs hvs => by cases hvs; exact hacc⟩
  | cons arg rest =>
    simp only [args_eval] at heq
    rcases hv : evalExpr fuel arg st with ⟨rv, stv⟩
    rw [hv] at heq
    obtain ⟨hstv, hokv⟩ := ihE arg st rv stv hst hv
    cases rv with
    | ok v =>
      dsimp only at heq
      refine ihA rest (acc ++ [v]) stv r st' hstv ?_ heq
      intro a ha
      rcases List.mem_append.mp ha with h | h
      · exact hacc a h
      · simp only [List.mem_singleton] at h
        subst h
        exact hokv a rfl
    | rerr e =>
      dsimp only at heq
      injection heq with h1 h2
      subst h1; subst h2
      exact ⟨hstv, fun vs hvs => by cases hvs⟩
    | panicked =>
      dsimp only at heq
      injection heq with h1 h2
      subst h1; subst h2
      exact ⟨hstv, fun vs hvs => by cases hvs⟩
    | nofuel =>
      dsimp only at heq
      injection heq with h1 h2
      subst h1; subst h2
      exact ⟨hstv, fun vs hvs => by cases hvs⟩

theorem exec_block_loop_step (fuel : Nat) (ih : MasterP fuel) :
    ∀ stmts st r st', HeapExitFree st.heap →
      exec_block_loop (fuel + 1) stmts st = (r, st') →
      HeapExitFree st'.heap ∧ ∀ v, r = .ok v → stmt_ok_val v := by
  obtain ⟨_, _, _, _, ihBL, _, ihS⟩ := ih
  intro stmts st r st' hst heq
  cases stmts with
  | nil =>
    simp only [exec_block_loop] at heq
    injection heq with h1 h2
    subst h1; subst h2
    exact ⟨hst, fun v hv => by cases hv; exact Or.inl rfl⟩
  | cons stmt rest =>
    simp only [exec_block_loop] at heq
    rcases hs : execStmt fuel stmt st with ⟨rs, sts⟩
    rw [hs] at heq
    obtain ⟨hsts, hoks⟩ := ihS stmt st rs sts hst hs
    cases rs with
    | ok sv =>
      cases sv
      case exit w =>
        dsimp only at heq
        injection heq with h1 h2
        subst h1; subst h2
        exact ⟨hsts, fun v hv => by cases hv; exact hoks (.exit w) rfl⟩
      all_goals
        dsimp only at heq
        exact ihBL rest sts r st' hsts heq
    | rerr e =>
      dsimp only at heq
      injection heq with h1 h2
      subst h1; subst h2
      exact ⟨hsts, fun v hv => by cases hv⟩
    | panicked =>
      dsimp only at heq
      injection heq with h1 h2
      subst h1; subst h2
      exact ⟨hsts, fun v hv => by cases hv⟩
    | nofuel =>
      dsimp only at heq
      injection heq with h1 h2
      subst h1; subst h2
      exact ⟨hsts, fun v hv => by cases hv⟩

theorem exec_block_step (fuel : Nat) (ih : MasterP fuel) :
    ∀ ne stmts st r st', HeapExitFree st.heap →
      exec_block (fuel + 1) ne stmts st = (r, st') →
      HeapExitFree st'.heap ∧ ∀ v, r = .ok v → stmt_ok_val v := by
  obtain ⟨_, _, _, _, ihBL, _, _⟩ := ih
  intro ne stmts st r st' hst heq
  simp only [exec_block] at heq
  rcases hl : exec_block_loop fuel stmts { st with environment := ne }
    with ⟨rl, stl⟩
  rw [hl] at heq
  obtain ⟨hstl, hokl⟩ := ihBL stmts { st with environment := ne } rl stl hst hl
  cases rl with
  | ok v =>
    dsimp only at heq
    injection heq with h1 h2
    subst h1; subst h2
    exact ⟨hstl, fun w hw => by cases hw; exact hokl v rfl⟩
  | rerr e =>
    dsimp only at heq
    injection heq with h1 h2
    subst h1; subst h2
    exact ⟨hstl, fun w hw => by cases hw⟩
  | panicked =>
    dsimp only at heq
    injection heq with h1 h2
    subst h1; subst h2
    exact ⟨hstl, fun w hw => by cases hw⟩
  | nofuel =>
    dsimp only at heq
    injection heq with h1 h2
    subst h1; subst h2
    exact ⟨hstl, fun w hw => by cases hw⟩

theorem while_loop_step (fuel : Nat) (ih : MasterP fuel) :
    ∀ cond body st r st', HeapExitFree st.heap →
      while_loop (fuel + 1) cond body st = (r, st') →
      HeapExitFree st'.heap ∧ ∀ v, r = .ok v → v = .nil := by
  obtain ⟨ihE, _, _, _, _, ihW, ihS⟩ := ih
  intro cond body st r st' hst heq
  simp only [while_loop] at heq
  rcases hc : evalExpr fuel cond st with ⟨rc, stc⟩
  rw [hc] at heq
  obtain ⟨hstc, _⟩ := ihE cond st rc stc hst hc
  cases rc with
  | ok c =>
    dsimp only at heq
    by_cases htr : is_truthy c = true
    · rw [if_pos htr] at heq
      rcases hb : execStmt fuel body stc with ⟨rb, stb⟩
      rw [hb] at heq
      obtain ⟨hstb, _⟩ := ihS body stc rb stb hstc hb
      cases rb with
      | ok bv =>
        dsimp only at heq
        by_cases hbt : is_truthy bv = true
        · rw [if_pos hbt] at heq
          injection heq with h1 h2
          subst h1; subst h2
          exact ⟨hstb, fun v hv => by cases hv; rfl⟩
        · rw [if_neg hbt] at heq
          exact ihW cond body stb r st' hstb heq
      | rerr e =>
        dsimp only at heq
        injection heq with h1 h2
        subst h1; subst h2
        exact ⟨hstb, fun v hv => by cases hv⟩
      | panicked =>
        dsimp only at heq
        injection heq with h1 h2
        subst h1; subst h2
        exact ⟨hstb, fun v hv => by cases hv⟩
      | nofuel =>
        dsimp only at heq
        injection heq with h1 h2
        subst h1; subst h2
        exact ⟨hstb, fun v hv => by cases hv⟩
    · rw [if_neg htr] at heq
      injection heq with h1 h2
      subst h1; subst h2
      exact ⟨hstc, fun v hv => by cases hv; rfl⟩
  | rerr e =>
    dsimp only at heq
    injection heq with h1 h2
    subst h1; subst h2
    exact ⟨hstc, fun v hv => by cases hv⟩
  | panicked =>
    dsimp only at heq
    injection heq with h1 h2
    subst h1; subst h2
    exact ⟨hstc, fun v hv => by cases hv⟩
  | nofuel =>
    dsimp only at heq
    injection heq with h1 h2
    subst h1; subst h2
    exact ⟨hstc, fun v hv => by cases hv⟩

theorem lox_call_step (fuel : Nat) (ih : MasterP fuel) :
    ∀ c args st r st', HeapExitFree st.heap →
      (∀ a ∈ args, is_exit a = false) →
      lox_call (fuel + 1) c args st = (r, st') →
      HeapExitFree st'.heap ∧ ∀ v, r = .ok v → is_exit v = false := by
  obtain ⟨_, _, _, ihB, _, _, _⟩ := ih
  intro c args st r st' hst hargs heq
  cases c with
  | clock =>
    simp only [lox_call] at heq
    injection heq with h1 h2
    subst h1; subst h2
    exact ⟨hst, fun v hv => by cases hv; rfl⟩
  | loxFunction name params body closure =>
    simp only [lox_call] at heq
    have hstp : HeapExitFree (define_params (env_new st.heap (some closure)).1
        (env_new st.heap (some closure)).2 params args) :=
      heapExitFree_define_params (env_new st.heap (some closure)).2 params args
        (env_new st.heap (some closure)).1
        (heapExitFree_env_new hst (some closure)) hargs
    rcases hb : exec_block fuel (env_new st.heap (some closure)).2 body
        { st with heap := (define_params (env_new st.heap (some closure)).1
            (env_new st.heap (some closure)).2 params args) }
      with ⟨rb, stb⟩
    rw [hb] at heq
    obtain ⟨hstb, hokb⟩ := ihB (env_new st.heap (some closure)).2 body
      { st with heap := (define_params (env_new st.heap (some closure)).1
          (env_new st.heap (some closure)).2 params args) }
      rb stb hstp hb
    cases rb with
    | ok bv =>
      cases bv
      case exit w =>
        dsimp only at heq
        injection heq with h1 h2
        subst h1; subst h2
        refine ⟨hstb, fun v hv => by
          cases hv
          rcases hokb (.exit w) rfl with h | ⟨w', hw', hww⟩
          · cases h
          · cases hww; exact hw'⟩
      all_goals
        dsimp only at heq
        injection heq with h1 h2
        subst h1; subst h2
      case nil => exact ⟨hstb, fun v hv => by cases hv; rfl⟩
      case number n => exact ⟨hstb, fun v hv => by cases hv; rfl⟩
      case string s => exact ⟨hstb, fun v hv => by cases hv; rfl⟩
      case boolean b => exact ⟨hstb, fun v hv => by cases hv; rfl⟩
      case function f => exact ⟨hstb, fun v hv => by cases hv; rfl⟩
    | rerr e =>
      dsimp only at heq
      injection heq with h1 h2
      subst h1; subst h2
      exact ⟨hstb, fun v hv => by cases hv⟩
    | panicked =>
      dsimp only at heq
      injection heq with h1 h2
      subst h1; subst h2
      exact ⟨hstb, fun v hv => by cases hv⟩
    | nofuel =>
      dsimp only at heq
      injection heq with h1 h2
      subst h1; subst h2
      exact ⟨hstb, fun v hv => by cases hv⟩

end Rlox

namespace Rlox

set_option maxHeartbeats 4000000

theorem evalExpr_step (fuel : Nat) (ih : MasterP fuel) :
    ∀ e st r st', HeapExitFree st.heap →
      evalExpr (fuel + 1) e st = (r, st') →
      HeapExitFree st'.heap ∧ ∀ v, r = .ok v → is_exit v = false := by
  obtain ⟨ihE, ihA, ihC, _, _, _, _⟩ := ih
  intro e st r st' hst heq
  cases e with
  | binary left operator right =>
    simp only [evalExpr] at heq
    rcases hl : evalExpr fuel left st with ⟨rl, stl⟩
    rw [hl] at heq
    obtain ⟨hstl, hokl⟩ := ihE left st rl stl hst hl
    cases rl
    case ok l =>
      dsimp only at heq
      rcases hr : evalExpr fuel right stl with ⟨rr, str⟩
      rw [hr] at heq
      obtain ⟨hstr, hokr⟩ := ihE right stl rr str hstl hr
      cases rr
      case ok rv =>
        dsimp only at heq
        injection heq with h1 h2
        subst h1; subst h2
        exact ⟨hstr, fun v hv => apply_binary_ok l operator rv v hv⟩
      all_goals
        dsimp only at heq
        injection heq with h1 h2
        subst h1; subst h2
        exact ⟨hstr, fun v hv => by cases hv⟩
    all_goals
      dsimp only at heq
      injection heq with h1 h2
      subst h1; subst h2
      exact ⟨hstl, fun v hv => by cases hv⟩
  | grouping expression =>
    simp only [evalExpr] at heq
    exact ihE expression st r st' hst heq
  | literal value =>
    simp only [evalExpr] at heq
    injection heq with h1 h2
    subst h1; subst h2
    exact ⟨hst, fun v hv => by
      cases hv; exact fromLiteral_exit_free value.literal⟩
  | unary operator right =>
    simp only [evalExpr] at heq
    rcases hr : evalExpr fuel right st with ⟨rr, str⟩
    rw [hr] at heq
    obtain ⟨hstr, hokr⟩ := ihE right st rr str hst hr
    cases rr
    case ok rv =>
      dsimp only at heq
      injection heq with h1 h2
      subst h1; subst h2
      exact ⟨hstr, fun v hv => apply_unary_ok operator rv v hv⟩
    all_goals
      dsimp only at heq
      injection heq with h1 h2
      subst h1; subst h2
      exact ⟨hstr, fun v hv => by cases hv⟩
  | variableE name =>
    simp only [evalExpr, Token.with_lexeme] at heq
    cases hlex : name.lexeme with
    | some lex =>
      rw [hlex] at heq
      dsimp only at heq
      cases hg : Environment.get st.heap st.environment lex with
      | some value =>
        rw [hg] at heq
        dsimp only at heq
        injection heq with h1 h2
        subst h1; subst h2
        exact ⟨hst, fun v hv => by cases hv; exact heapExitFree_get hst hg⟩
      | none =>
        rw [hg] at heq
        dsimp only at heq
        injection heq with h1 h2
        subst h1; subst h2
        exact ⟨hst, fun v hv => by cases hv⟩
    | none =>
      rw [hlex] at heq
      dsimp only at heq
      cases hg : Environment.get st.heap st.environment "" with
      | some value =>
        rw [hg] at heq
        dsimp only at heq
        injection heq with h1 h2
        subst h1; subst h2
        exact ⟨hst, fun v hv => by cases hv; exact heapExitFree_get hst hg⟩
      | none =>
        rw [hg] at heq
        dsimp only at heq
        injection heq with h1 h2
        subst h1; subst h2
        exact ⟨hst, fun v hv => by cases hv⟩
  | assign name value =>
    simp only [evalExpr] at heq
    rcases hv : evalExpr fuel value st with ⟨rv, stv⟩
    rw [hv] at heq
    obtain ⟨hstv, hokv⟩ := ihE value st rv stv hst hv
    cases rv
    case ok v0 =>
      dsimp only at heq
      cases hlex : name.lexeme with
      | none =>
        rw [hlex] at heq
        dsimp only at heq
        injection heq with h1 h2
        subst h1; subst h2
        exact ⟨hstv, fun v hv => by cases hv⟩
      | some lex =>
        rw [hlex] at heq
        dsimp only at heq
        cases ha : Environment.assign stv.heap stv.environment lex v0 with
        | some heap2 =>
          rw [ha] at heq
          dsimp only at heq
          injection heq with h1 h2
          subst h1; subst h2
          exact ⟨heapExitFree_assign hstv (hokv v0 rfl) ha,
                 fun v hv => by cases hv; exact hokv v0 rfl⟩
        | none =>
          rw [ha] at heq
          dsimp only at heq
          injection heq with h1 h2
          subst h1; subst h2
          exact ⟨hstv, fun v hv => by cases hv⟩
    all_goals
      dsimp only at heq
      injection heq with h1 h2
      subst h1; subst h2
      exact ⟨hstv, fun v hv => by cases hv⟩
  | logical left operator right =>
    simp only [evalExpr] at heq
    rcases hl : evalExpr fuel left st with ⟨rl, stl⟩
    rw [hl] at heq
    obtain ⟨hstl, hokl⟩ := ihE left st rl stl hst hl
    cases rl
    case ok l =>
      dsimp only at heq
      split at heq
      · by_cases htr : is_truthy l = true
        · rw [if_pos htr] at heq
          injection heq with h1 h2
          subst h1; subst h2
          exact ⟨hstl, fun v hv => by cases hv; exact hokl l rfl⟩
        · rw [if_neg htr] at heq
          exact ihE right stl r st' hstl heq
      · by_cases htr : is_truthy l = true
        · rw [if_pos htr] at heq
          exact ihE right stl r st' hstl heq
        · rw [if_neg htr] at heq
          injection heq with h1 h2
          subst h1; subst h2
          exact ⟨hstl, fun v hv => by cases hv; exact hokl l rfl⟩
      · injection heq with h1 h2
        subst h1; subst h2
        exact ⟨hstl, fun v hv => by cases hv⟩
    all_goals
      dsimp only at heq
      injection heq with h1 h2
      subst h1; subst h2
      exact ⟨hstl, fun v hv => by cases hv⟩
  | call callee paren args =>
    simp only [evalExpr] at heq
    rcases ha : args_eval fuel args [] st with ⟨ra, sta⟩
    rw [ha] at heq
    obtain ⟨hsta, hoka⟩ := ihA args [] st ra sta hst (by intro a h; cases h) ha
    cases ra
    case ok vs =>
      dsimp only at heq
      rcases hc : evalExpr fuel callee sta with ⟨rc, stc⟩
      rw [hc] at heq
      obtain ⟨hstc, hokc⟩ := ihE callee sta rc stc hsta hc
      cases rc
      case ok cv =>
        cases cv
        case function f =>
          dsimp only at heq
          exact ihC f vs stc r st' hstc (hoka vs rfl) heq
        all_goals
          dsimp only at heq
          injection heq with h1 h2
          subst h1; subst h2
          exact ⟨hstc, fun v hv => by cases hv⟩
      all_goals
        dsimp only at heq
        injection heq with h1 h2
        subst h1; subst h2
        exact ⟨hstc, fun v hv => by cases hv⟩
    all_goals
      dsimp only at heq
      injection heq with h1 h2
      subst h1; subst h2
      exact ⟨hsta, fun v hv => by cases hv⟩
  | functionE params body =>
    simp only [evalExpr] at heq
    injection heq with h1 h2
    subst h1; subst h2
    exact ⟨hst, fun v hv => by cases hv; rfl⟩

end Rlox

namespace Rlox

set_option maxHeartbeats 4000000

theorem is_exit_nil : is_exit .nil = false := rfl

theorem is_exit_function (f : Callable) : is_exit (.function f) = false := rfl

theorem execStmt_step (fuel : Nat) (ih : MasterP fuel) :
    ∀ s st r st', HeapExitFree st.heap →
      execStmt (fuel + 1) s st = (r, st') →
      HeapExitFree st'.heap ∧ ∀ v, r = .ok v → stmt_ok_val v := by
  obtain ⟨ihE, _, _, ihB, _, ihW, ihS⟩ := ih
  intro s st r st' hst heq
  cases s with
  | expression expression =>
    simp only [execStmt] at heq
    rcases he : evalExpr fuel expression st with ⟨re, ste⟩
    rw [he] at heq
    obtain ⟨hste, hoke0⟩ := ihE expression st re ste hst he
    cases re
    case ok v0 =>
      dsimp only at heq
      injection heq with h1 h2
      subst h1; subst h2
      exact ⟨hste, fun v hv => by cases hv; exact Or.inl rfl⟩
    all_goals
      dsimp only at heq
      injection heq with h1 h2
      subst h1; subst h2
      exact ⟨hste, fun v hv => by cases hv⟩
  | print expression =>
    simp only [execStmt] at heq
    rcases he : evalExpr fuel expression st with ⟨re, ste⟩
    rw [he] at heq
    obtain ⟨hste, hoke0⟩ := ihE expression st re ste hst he
    cases re
    case ok v0 =>
      dsimp only at heq
      injection heq with h1 h2
      subst h1; subst h2
      exact ⟨hste, fun v hv => by cases hv; exact Or.inl rfl⟩
    all_goals
      dsimp only at heq
      injection heq with h1 h2
      subst h1; subst h2
      exact ⟨hste, fun v hv => by cases hv⟩
  | varS name initializer =>
    simp only [execStmt] at heq
    cases initializer with
    | some e =>
      dsimp only at heq
      rcases he : evalExpr fuel e st with ⟨re, ste⟩
      rw [he] at heq
      obtain ⟨hste, hoke⟩ := ihE e st re ste hst he
      cases re
      case ok v0 =>
        dsimp only at heq
        injection heq with h1 h2
        subst h1; subst h2
        exact ⟨heapExitFree_define hste (hoke v0 rfl) _ _,
               fun v hv => by cases hv; exact Or.inl rfl⟩
      all_goals
        dsimp only at heq
        injection heq with h1 h2
        subst h1; subst h2
        exact ⟨hste, fun v hv => by cases hv⟩
    | none =>
      dsimp only at heq
      injection heq with h1 h2
      subst h1; subst h2
      exact ⟨heapExitFree_define hst is_exit_nil _ _,
             fun v hv => by cases hv; exact Or.inl rfl⟩
  | block statements =>
    simp only [execStmt] at heq
    exact ihB (env_new st.heap (some st.environment)).2 statements
      { st with heap := (env_new st.heap (some st.environment)).1 }
      r st' (heapExitFree_env_new hst (some st.environment)) heq
  | ifS condition then_branch else_branch =>
    simp only [execStmt] at heq
    rcases hc : evalExpr fuel condition st with ⟨rc, stc⟩
    rw [hc] at heq
    obtain ⟨hstc, hokc0⟩ := ihE condition st rc stc hst hc
    cases rc
    case ok c =>
      dsimp only at heq
      by_cases htr : is_truthy c = true
      · rw [if_pos htr] at heq
        exact ihS then_branch stc r st' hstc heq
      · rw [if_neg htr] at heq
        cases else_branch with
        | some e =>
          dsimp only at heq
          exact ihS e stc r st' hstc heq
        | none =>
          dsimp only at heq
          injection heq with h1 h2
          subst h1; subst h2
          exact ⟨hstc, fun v hv => by cases hv; exact Or.inl rfl⟩
    all_goals
      dsimp only at heq
      injection heq with h1 h2
      subst h1; subst h2
      exact ⟨hstc, fun v hv => by cases hv⟩
  | whileS condition body =>
    simp only [execStmt] at heq
    obtain ⟨hstw, hokw⟩ := ihW condition body st r st' hst heq
    exact ⟨hstw, fun v hv => Or.inl (hokw v hv)⟩
  | breakS keyword =>
    simp only [execStmt] at heq
    injection heq with h1 h2
    subst h1; subst h2
    exact ⟨hst, fun v hv => by cases hv; exact Or.inr ⟨.nil, rfl, rfl⟩⟩
  | ret keyword value =>
    simp only [execStmt] at heq
    cases value with
    | some e =>
      dsimp only at heq
      rcases he : evalExpr fuel e st with ⟨re, ste⟩
      rw [he] at heq
      obtain ⟨hste, hoke⟩ := ihE e st re ste hst he
      cases re
      case ok v0 =>
        dsimp only at heq
        injection heq with h1 h2
        subst h1; subst h2
        exact ⟨hste, fun v hv => by
          cases hv; exact Or.inr ⟨v0, hoke v0 rfl, rfl⟩⟩
      all_goals
        dsimp only at heq
        injection heq with h1 h2
        subst h1; subst h2
        exact ⟨hste, fun v hv => by cases hv⟩
    | none =>
      dsimp only at heq
      injection heq with h1 h2
      subst h1; subst h2
      exact ⟨hst, fun v hv => by cases hv; exact Or.inr ⟨.nil, rfl, rfl⟩⟩
  | functionS name params body =>
    simp only [execStmt] at heq
    injection heq with h1 h2
    subst h1; subst h2
    exact ⟨heapExitFree_define hst
             (is_exit_function (Callable.loxFunction (some name) params body
               st.environment)) _ _,
           fun v hv => by cases hv; exact Or.inl rfl⟩

/-- The full C3 induction: every evaluator function, at every fuel. -/
theorem exit_free_master : ∀ fuel, MasterP fuel := by
  intro fuel
  induction fuel with
  | zero =>
    refine ⟨?_, ?_, ?_, ?_, ?_, ?_, ?_⟩
    · intro e st r st' hst heq
      injection heq with h1 h2
      subst h1; subst h2
      exact ⟨hst, fun v hv => by cases hv⟩
    · intro argsE acc st r st' hst hacc heq
      injection heq with h1 h2
      subst h1; subst h2
      exact ⟨hst, fun vs hv => by cases hv⟩
    · intro c args st r st' hst hargs heq
      injection heq with h1 h2
      subst h1; subst h2
      exact ⟨hst, fun v hv => by cases hv⟩
    · intro ne stmts st r st' hst heq
      injection heq with h1 h2
      subst h1; subst h2
      exact ⟨hst, fun v hv => by cases hv⟩
    · intro stmts st r st' hst heq
      injection heq with h1 h2
      subst h1; subst h2
      exact ⟨hst, fun v hv => by cases hv⟩
    · intro cond body st r st' hst heq
      injection heq with h1 h2
      subst h1; subst h2
      exact ⟨hst, fun v hv => by cases hv⟩
    · intro s st r st' hst heq
      injection heq with h1 h2
      subst h1; subst h2
      exact ⟨hst, fun v hv => by cases hv⟩
  | succ fuel ihf =>
    exact ⟨evalExpr_step fuel ihf, args_eval_step fuel ihf,
           lox_call_step fuel ihf, exec_block_step fuel ihf,
           exec_block_loop_step fuel ihf, while_loop_step fuel ihf,
           execStmt_step fuel ihf⟩

/-- `interpret`'s loop preserves the no-`Exit`-stored invariant. -/
theorem interpret_loop_exit_free :
    ∀ fuel stmts (st : Interp) r st', HeapExitFree st.heap →
      interpret_loop fuel stmts st = (r, st') → HeapExitFree st'.heap := by
  intro fuel
  induction fuel with
  | zero =>
    intro stmts st r st' hst heq
    injection heq with h1 h2
    subst h2
    exact hst
  | succ fuel ihf =>
    intro stmts st r st' hst heq
    cases stmts with
    | nil =>
      simp only [interpret_loop] at heq
      injection heq with h1 h2
      subst h2
      exact hst
    | cons s rest =>
      simp only [interpret_loop] at heq
      rcases hs : execStmt fuel s st with ⟨rs, sts⟩
      rw [hs] at heq
      have hsts :=
        ((exit_free_master fuel).2.2.2.2.2.2 s st rs sts hst hs).1
      cases rs
      case ok v0 =>
        dsimp only at heq
        exact ihf rest sts r st' hsts heq
      all_goals
        dsimp only at heq
        injection heq with h1 h2
        subst h2
        exact hsts

end Rlox

namespace Rlox

set_option maxHeartbeats 2000000

/-- The freshly constructed interpreter stores no `Exit` (globals hold
only the `clock` builtin). -/
theorem initInterp_heap_exit_free : HeapExitFree initInterp.heap := by
  intro env henv kv hkv
  simp only [initInterp] at henv
  rcases List.mem_cons.mp henv with rfl | h
  · rcases List.mem_cons.mp hkv with rfl | h2
    · rfl
    · cases h2
  · rcases List.mem_cons.mp h with rfl | h2
    · cases hkv
    · cases h2

/-- C3: the `Exit` runtime value never escapes statement execution.  On
any interpreter state whose arena stores no `Exit`: (i) an expression
never evaluates to an `Exit` and never stores one in any environment;
(ii) a call's result is never an `Exit` (the call boundary unwraps
`Exit(v)` to `v`); (iii) every evaluated argument list is `Exit`-free;
(iv) `interpret` preserves the no-`Exit`-stored invariant across the
whole program (and its own result type carries no value at all, so its
final result is trivially never `Exit`). -/
theorem spec_C3_exit_never_escapes (fuel : Nat) (e : Expr) (c : Callable)
    (args : List LoxObject) (stmts : List Stmt) (st : Interp)
    (hst : HeapExitFree st.heap) :
    (∀ r st', evalExpr fuel e st = (r, st') →
       HeapExitFree st'.heap ∧ ∀ v, r = .ok v → is_exit v = false) ∧
    ((∀ a ∈ args, is_exit a = false) →
       ∀ r st', lox_call fuel c args st = (r, st') →
         ∀ v, r = .ok v → is_exit v = false) ∧
    (∀ argsE r st', args_eval fuel argsE [] st = (r, st') →
       ∀ vs, r = .ok vs → ∀ a ∈ vs, is_exit a = false) ∧
    (∀ r st', interpret_loop fuel stmts st = (r, st') →
       HeapExitFree st'.heap) := by
  obtain ⟨ihE, ihA, ihC, _, _, _, _⟩ := exit_free_master fuel
  refine ⟨fun r st' h => ihE e st r st' hst h, ?_, ?_, ?_⟩
  · intro hargs r st' h
    exact (ihC c args st r st' hst hargs h).2
  · intro argsE r st' h
    exact (ihA argsE [] st r st' hst (by intro a ha; cases ha) h).2
  · intro r st' h
    exact interpret_loop_exit_free fuel stmts st r st' hst h

/-- C3 witness: applied at the initial interpreter state to the literal
`true` expression — the result value is not an `Exit`. -/
theorem spec_C3_witness : is_exit (LoxObject.boolean true) = false :=
  ((spec_C3_exit_never_escapes 1 litTrue .clock [] [] initInterp
      initInterp_heap_exit_free).1 (.ok (.boolean true)) initInterp rfl).2
    (.boolean true) rfl

end Rlox
